import Mathlib

/- Verification development for the protein similarity-graph pipeline.

   Shallow embedding of:
   - app/initialization_scripts/build_graph.py   (rebuild orchestration, GDS call
     configuration, mathematical reconstruction of shared/union domain counts)
   - app/initialization_scripts/load_mongo.py    (row ingestion into the document store)
   - app/search_queries/neo4j_queries.py         (neighborhood retrieval and the
     visualization export with tiered edge filtering)

   Machine integers are modelled as Nat/Int, stored floating-point weights as
   exact rationals. -/

namespace PG

/- ------------------------------------------------------------------ -/
/- Part 1: rebuild orchestration (build_graph.py)                      -/
/- ------------------------------------------------------------------ -/

/-- One step of the full rebuild, as executed by build_graph.py.
    `ensureConstraints` and `importBatches` are performed by
    import_proteins_and_domains; the remaining six are the body of
    build_similarity_edges_gds_math in source order. -/
inductive RebuildStep where
  | ensureConstraints
  | importBatches
  | deleteSimilarEdges
  | projectGraph
  | gdsSimilarityWrite
  | dropProjection
  | recomputeDomainCounts
  | enrichSharedUnion
deriving DecidableEq, Repr

/-- Step sequence of build_similarity_edges_gds_math (build_graph.py lines 115-142):
    clean_previous_data (deletes all SIMILAR relationships), project_graph,
    run_gds_similarity (computes AND writes the SIMILAR edges), drop_graph_projection,
    precalculate_domain_counts, calculate_shared_union_domains_math. -/
def build_similarity_edges_gds_math : List RebuildStep :=
  [.deleteSimilarEdges, .projectGraph, .gdsSimilarityWrite, .dropProjection,
   .recomputeDomainCounts, .enrichSharedUnion]

/-- The full rebuild as run from the script main: import_proteins_and_domains
    (constraints, then batched import) followed by build_similarity_edges_gds_math. -/
def full_rebuild : List RebuildStep :=
  [.ensureConstraints, .importBatches] ++ build_similarity_edges_gds_math

/-- Position of a step in a step sequence. -/
def stepIdx (l : List RebuildStep) (s : RebuildStep) : Nat :=
  l.findIdx (fun x => decide (x = s))

/-- Parameter keys of the gds.nodeSimilarity.write call issued by
    run_gds_similarity (build_graph.py lines 192-204). -/
def gdsNodeSimilarityConfigKeys : List String :=
  ["similarityMetric", "writeRelationshipType", "writeProperty",
   "similarityCutoff", "concurrency"]

/- ------------------------------------------------------------------ -/
/- Part 2: EdgeEnricher (calculate_shared_union_domains_math)          -/
/- ------------------------------------------------------------------ -/

/-- The per-edge update performed by calculate_shared_union_domains_math
    (build_graph.py lines 233-253): given the two endpoints' domain_count
    values A and B and the stored jaccard_weight J, it computes
    intersect = toInteger(round((J * (A + B)) / (1.0 + J))) and
    union = (A + B) - intersect.  Neo4j round() rounds half away from zero,
    which on the nonnegative values arising here agrees with Mathlib round. -/
def calculate_shared_union_domains_math (A B : Nat) (J : ℚ) : ℤ × ℤ :=
  let intersect : ℤ := round (J * ((A : ℚ) + (B : ℚ)) / (1 + J))
  (intersect, ((A : ℤ) + (B : ℤ)) - intersect)

/- ------------------------------------------------------------------ -/
/- Part 3: document-store ingestion (load_mongo.py)                    -/
/- ------------------------------------------------------------------ -/

/-- One row of the input TSV as seen by process_and_insert_chunk.  A field is
    `none` when the cell is missing or NaN (both are sent to the empty list by
    split_semicolon_field, and a missing Entry makes the row skipped). -/
structure TsvRow where
  entry : Option String
  entry_name : Option String := none
  organism : Option String := none
  sequence : String := ""
  seq_length : Option Int := none
  protein_names : Option String := none
  interpro : Option String := none
  ec_number : Option String := none
deriving DecidableEq, Repr

/-- Splitting a character list at every semicolon, as Python str.split(";"):
    the empty string yields one empty token, separators are not merged. -/
def charSplit : List Char → List Char → List (List Char)
  | acc, [] => [acc.reverse]
  | acc, c :: rest =>
    if c = ';' then acc.reverse :: charSplit [] rest else charSplit (c :: acc) rest

/-- Python str.split(";") on a string. -/
def pySplit (s : String) : List String :=
  (charSplit [] s.data).map String.mk

/-- Python str.strip(): drop leading and trailing whitespace. -/
def pyStrip (s : String) : String :=
  String.mk (((s.data.dropWhile Char.isWhitespace).reverse.dropWhile
    Char.isWhitespace).reverse)

/-- split_semicolon_field (load_mongo.py lines 23-34): None/NaN map to [],
    otherwise split on the semicolon, strip each token and drop empty ones. -/
def split_semicolon_field (val : Option String) : List String :=
  match val with
  | none => []
  | some s => ((pySplit s).map pyStrip).filter (fun x => decide (x ≠ ""))

/-- The document built for one row (load_mongo.py lines 52-79). -/
structure MongoDoc where
  uniprot_id : String
  entry_name : Option String
  organism : Option String
  protein_names : List String
  interpro_ids : List String
  ec_numbers : List String
  is_labelled : Bool
deriving DecidableEq, Repr

/-- Row-to-document translation inside process_and_insert_chunk: a row with no
    string Entry is skipped; otherwise ec_numbers is the semicolon split of the
    EC-number field and is_labelled is len(ec_numbers) > 0. -/
def buildDoc (organism_default : Option String) (row : TsvRow) : Option MongoDoc :=
  match row.entry with
  | none => none
  | some entry =>
    let ec := split_semicolon_field row.ec_number
    some
      { uniprot_id := entry
        entry_name := row.entry_name
        organism := match row.organism with
          | some o => some o
          | none => organism_default
        protein_names := split_semicolon_field row.protein_names
        interpro_ids := split_semicolon_field row.interpro
        ec_numbers := ec
        is_labelled := decide (0 < ec.length) }

/-- process_and_insert_chunk (load_mongo.py lines 49-91), restricted to the
    transformation of rows into the documents handed to insert_many. -/
def process_and_insert_chunk (organism_default : Option String)
    (chunk : List TsvRow) : List MongoDoc :=
  chunk.filterMap (buildDoc organism_default)

/-- The raw semicolon-separated tokens of an optional field (before stripping). -/
def ecTokens (val : Option String) : List String :=
  match val with
  | none => []
  | some s => pySplit s

/- ------------------------------------------------------------------ -/
/- Part 4: SimilarityEngine, modelled from the spec                    -/
/- ------------------------------------------------------------------ -/

/-- An entity as consumed by the DomainIndex: an id and its category keys. -/
structure Entity where
  id : String
  domain_ids : List String
deriving DecidableEq, Repr

/-- Modelled from the spec: the DomainIndex per-entity domain count
    (spec 4.1; in the repository this number is recomputed inside Neo4j by
    precalculate_domain_counts, whose counting code is a Cypher string,
    not Python source): the number of distinct domain tags of the entity. -/
def domainCount (entities : List Entity) (u : String) : Nat :=
  match entities.find? (fun e => decide (e.id = u)) with
  | some e => e.domain_ids.dedup.length
  | none => 0

/-- All domain ids mentioned by some entity, deduplicated. -/
def allDomains (entities : List Entity) : List String :=
  ((entities.map Entity.domain_ids).flatten).dedup

/-- Modelled from the spec: the DomainIndex inverted mapping (spec 4.1),
    domain id to the list of ids of the entities carrying it. -/
def carriers (entities : List Entity) (d : String) : List String :=
  (entities.filter (fun e => decide (d ∈ e.domain_ids))).map Entity.id

/-- Modelled from the spec: the result of the SimilarityEngine pair
    accumulation (spec 4.2) — the number of domains whose carrier set
    contains both u and v. -/
def sharedCount (entities : List Entity) (u v : String) : Nat :=
  ((allDomains entities).filter
    (fun d => decide (u ∈ carriers entities d) && decide (v ∈ carriers entities d))).length

/-- All unordered pairs of a list, each pair once. -/
def listPairs : List String → List (String × String)
  | [] => []
  | x :: xs => (xs.map (fun y => (x, y))) ++ listPairs xs

/-- A candidate SIMILAR edge emitted by the similarity computation. -/
structure SimEdge where
  a : String
  b : String
  jaccard_weight : ℚ
deriving DecidableEq, Repr

/-- Modelled from the spec: the SimilarityEngine (spec 4.2).  The similarity
    computation itself runs inside the external GDS nodeSimilarity procedure;
    only its invocation run_gds_similarity is repository code.  For every
    unordered pair sharing at least one domain, union = count(u) + count(v)
    - shared, jaccard = shared / union, and a candidate edge is emitted iff
    jaccard >= threshold (inclusive boundary). -/
def similarityEngine (entities : List Entity) (threshold : ℚ) : List SimEdge :=
  ((listPairs (entities.map Entity.id)).filter
    (fun p => decide (1 ≤ sharedCount entities p.1 p.2))).filterMap
    (fun p =>
      let s := sharedCount entities p.1 p.2
      let un := domainCount entities p.1 + domainCount entities p.2 - s
      let j := (s : ℚ) / (un : ℚ)
      if threshold ≤ j then some ⟨p.1, p.2, j⟩ else none)

/-- The set of distinct domains of the entity with a given id. -/
def domSet (entities : List Entity) (u : String) : Finset String :=
  match entities.find? (fun e => decide (e.id = u)) with
  | some e => e.domain_ids.toFinset
  | none => ∅

/-- The exact Jaccard coefficient of the two entities' domain sets. -/
def jaccardSets (entities : List Entity) (u v : String) : ℚ :=
  (((domSet entities u) ∩ (domSet entities v)).card : ℚ)
    / (((domSet entities u) ∪ (domSet entities v)).card : ℚ)

/- ------------------------------------------------------------------ -/
/- Part 5: neighborhood retrieval and visualization export             -/
/-         (app/search_queries/neo4j_queries.py)                       -/
/- ------------------------------------------------------------------ -/

/-- A Protein node as stored in the graph (the properties the export reads). -/
structure ProteinNode where
  uniprot_id : String
  protein_names : Option (List String) := none
  nlength : Option Int := none
deriving DecidableEq, Repr

/-- A Domain node as stored in the graph. -/
structure DomainNode where
  interpro_id : String
  name : Option String := none
deriving DecidableEq, Repr

/-- A stored SIMILAR relationship, directed as written by the GDS write. -/
structure StoredSim where
  src : String
  tgt : String
  weight : ℚ
deriving DecidableEq, Repr

/-- The graph store: Protein nodes, SIMILAR relationships, HAS_DOMAIN
    relationships (protein id, domain id) and Domain nodes. -/
structure GraphStore where
  proteins : List ProteinNode
  sims : List StoredSim
  domRels : List (String × String)
  doms : List DomainNode
deriving DecidableEq, Repr

/-- A relationship as returned by the Cypher map projection used in
    get_protein_neighborhood: source and target are the start and end node
    ids, SIMILAR relationships carry their jaccard_weight and HAS_DOMAIN
    relationships have none. -/
structure Rel where
  source : String
  target : String
  rtype : String
  jaccard_weight : Option ℚ := none
deriving DecidableEq, Repr

/-- The neighborhood dictionary returned by get_protein_neighborhood
    (center_protein, neighbors, merged relationships, domains, depth). -/
structure Neighborhood where
  center_protein : ProteinNode
  neighbors : List ProteinNode
  relationships : List Rel
  domains : List DomainNode
  depth : Nat
deriving DecidableEq, Repr

/-- MATCH (p:Protein \x7buniprot_id: $protein_id\x7d). -/
def lookupProtein (g : GraphStore) (pid : String) : Option ProteinNode :=
  g.proteins.find? (fun p => decide (p.uniprot_id = pid))

def lookupDomain (g : GraphStore) (did : String) : Option DomainNode :=
  g.doms.find? (fun d => decide (d.interpro_id = did))

/-- Whether a stored SIMILAR relationship touches the given node id:
    the undirected pattern (x)-[r:SIMILAR]-(y). -/
def simIncident (pid : String) (r : StoredSim) : Bool :=
  decide (r.src = pid) || decide (r.tgt = pid)

/-- The endpoint of an incident relationship that is not pid. -/
def otherEnd (pid : String) (r : StoredSim) : String :=
  if r.src = pid then r.tgt else r.src

/-- Map projection of a stored SIMILAR relationship. -/
def projSim (r : StoredSim) : Rel :=
  { source := r.src, target := r.tgt, rtype := "SIMILAR",
    jaccard_weight := some r.weight }

/-- SIMILAR relationships incident to the center: the depth-1 OPTIONAL MATCH
    (p)-[r:SIMILAR]-(neighbor:Protein). -/
def centerSims (g : GraphStore) (pid : String) : List StoredSim :=
  g.sims.filter (simIncident pid)

/-- Ids of the direct SIMILAR neighbors of the center in the store. -/
def tier1Store (g : GraphStore) (pid : String) : List String :=
  (centerSims g pid).map (otherEnd pid)

/-- SIMILAR relationships lying on a path (p)-[:SIMILAR*1..2]-(neighbor):
    those incident to the center or to one of its direct neighbors. -/
def depth2Sims (g : GraphStore) (pid : String) : List StoredSim :=
  g.sims.filter (fun r =>
    simIncident pid r || (tier1Store g pid).any (fun x => simIncident x r))

/-- Distinct domain ids of the center (HAS_DOMAIN is expanded for the center
    only, at both depths). -/
def centerDomainIds (g : GraphStore) (pid : String) : List String :=
  ((g.domRels.filter (fun dr => decide (dr.1 = pid))).map Prod.snd).dedup

/-- The center's HAS_DOMAIN relationships as projected (source is the center
    id, target the domain id, no weight property). -/
def centerDomainRels (g : GraphStore) (pid : String) : List Rel :=
  (centerDomainIds g pid).map (fun did =>
    { source := pid, target := did, rtype := "HAS_DOMAIN", jaccard_weight := none })

/-- The relationships list of the neighborhood result: the distinct projected
    SIMILAR relationships of the chosen depth, merged with the center's
    HAS_DOMAIN relationships (all_relationships = relationships + domain_rels). -/
def retrievedRels (g : GraphStore) (pid : String) (depth : Nat) : List Rel :=
  (if depth = 1 then ((centerSims g pid).map projSim).dedup
   else ((depth2Sims g pid).map projSim).dedup) ++ centerDomainRels g pid

/-- The distinct neighbor nodes of the neighborhood result: at depth 1 the
    direct neighbors, otherwise every node on a retrieved path other than the
    center. -/
def retrievedNeighbors (g : GraphStore) (pid : String) (depth : Nat) :
    List ProteinNode :=
  if depth = 1 then
    ((centerSims g pid).map (otherEnd pid)).dedup.filterMap (lookupProtein g)
  else
    (((depth2Sims g pid).map (fun r => [r.src, r.tgt])).flatten.dedup.filter
      (fun x => decide (x ≠ pid))).filterMap (lookupProtein g)

/-- get_protein_neighborhood (neo4j_queries.py lines 121-193): the empty
    result (modelled as none) when the center id matches no Protein node;
    otherwise the center node with its neighbors, merged relationships and
    domains. -/
def get_protein_neighborhood (g : GraphStore) (pid : String) (depth : Nat) :
    Option Neighborhood :=
  match lookupProtein g pid with
  | none => none
  | some p =>
    some { center_protein := p
           neighbors := retrievedNeighbors g pid depth
           relationships := retrievedRels g pid depth
           domains := (centerDomainIds g pid).filterMap (lookupDomain g)
           depth := depth }

/-- Tier-1 ids as recomputed by the export from the retrieved relationships
    (neo4j_queries.py lines 374-379). -/
def tier1Ids (centerId : String) (rels : List Rel) : List String :=
  (rels.filter (fun r => decide (r.rtype = "SIMILAR"))).filterMap (fun r =>
    if r.source = centerId then some r.target
    else if r.target = centerId then some r.source
    else none)

/-- A Cytoscape node element's data. -/
structure NodeData where
  nid : String
  label : String
  full_name : String
  ntype : String
  nlength : Option Int
deriving DecidableEq, Repr

/-- A Cytoscape edge element's data; the weight field is present exactly when
    the underlying relationship carries a jaccard_weight. -/
structure EdgeData where
  eid : String
  source : String
  target : String
  rtype : String
  weight : Option ℚ
deriving DecidableEq, Repr

/-- One element of the export payload. -/
inductive Element where
  | node : NodeData → Element
  | edge : EdgeData → Element
deriving DecidableEq, Repr

/-- First entry of protein_names when it is a nonempty list, else "N/A". -/
def fullNameOf (names : Option (List String)) : String :=
  match names with
  | some (x :: _) => x
  | _ => "N/A"

/-- The center node element (lines 383-388). -/
def centerElement (p : ProteinNode) : Element :=
  .node { nid := p.uniprot_id, label := p.uniprot_id,
          full_name := fullNameOf p.protein_names, ntype := "center",
          nlength := some (p.nlength.getD 0) }

/-- Neighbor node elements (lines 391-404): deduplicated against the already
    added node ids, tagged neighbor_d1 when the id is tier-1, else
    neighbor_d2. -/
def neighborElements (tier1 : List String) : List String → List ProteinNode → List Element
  | _, [] => []
  | existing, n :: rest =>
    if n.uniprot_id ∈ existing then neighborElements tier1 existing rest
    else
      .node { nid := n.uniprot_id, label := n.uniprot_id,
              full_name := fullNameOf n.protein_names,
              ntype := if n.uniprot_id ∈ tier1 then "neighbor_d1" else "neighbor_d2",
              nlength := some (n.nlength.getD 0) }
        :: neighborElements tier1 (n.uniprot_id :: existing) rest

/-- Domain node elements (lines 406-413). -/
def domainElements (doms : List DomainNode) : List Element :=
  doms.map (fun d =>
    .node { nid := "dom_" ++ d.interpro_id, label := d.interpro_id,
            full_name := d.name.getD d.interpro_id, ntype := "domain",
            nlength := none })

/-- rel.get("jaccard_weight", 0): the weight used by the best-match
    comparisons; a missing weight counts as 0. -/
def relWeight (r : Rel) : ℚ := r.jaccard_weight.getD 0

/-- The tier-2 endpoint of a SIMILAR relationship that is neither
    center-incident nor lateral (lines 444-449). -/
def d2NodeOf (centerId : String) (tier1 : List String) (r : Rel) : Option String :=
  if r.source ∉ tier1 ∧ r.source ≠ centerId then some r.source
  else if r.target ∉ tier1 ∧ r.target ≠ centerId then some r.target
  else none

/-- One update of the best_d2_links dict (lines 452-457): insert when the key
    is absent (at the end, dicts preserve insertion order), else replace the
    stored entry only when the new weight is strictly greater. -/
def updateBest (m : List (String × ℚ × Rel)) (k : String) (w : ℚ) (r : Rel) :
    List (String × ℚ × Rel) :=
  match m with
  | [] => [(k, w, r)]
  | (k', w', r') :: rest =>
    if k = k' then
      if w' < w then (k, w, r) :: rest else (k', w', r') :: rest
    else (k', w', r') :: updateBest rest k w r

/-- Lookup in best_d2_links. -/
def bmLookup (m : List (String × ℚ × Rel)) (k : String) : Option (ℚ × Rel) :=
  (m.find? (fun e => decide (e.1 = k))).map (fun e => e.2)

/-- The edge-filtering loop of the export (lines 415-457): returns the
    relationships appended directly to final_edges (domain edges and
    center-incident SIMILAR edges, in input order) together with the final
    best_d2_links map.  Lateral tier-1/tier-1 edges are dropped; the
    remaining SIMILAR edges compete per tier-2 node in best_d2_links. -/
def processRels (centerId : String) (tier1 : List String) :
    List (String × ℚ × Rel) → List Rel → List Rel × List (String × ℚ × Rel)
  | bm, [] => ([], bm)
  | bm, r :: rest =>
    if r.rtype = "HAS_DOMAIN" then
      (r :: (processRels centerId tier1 bm rest).1,
        (processRels centerId tier1 bm rest).2)
    else if r.rtype = "SIMILAR" then
      if r.source = centerId ∨ r.target = centerId then
        (r :: (processRels centerId tier1 bm rest).1,
          (processRels centerId tier1 bm rest).2)
      else if r.source ∈ tier1 ∧ r.target ∈ tier1 then
        processRels centerId tier1 bm rest
      else
        match d2NodeOf centerId tier1 r with
        | some k => processRels centerId tier1 (updateBest bm k (relWeight r) r) rest
        | none => processRels centerId tier1 bm rest
    else processRels centerId tier1 bm rest

/-- final_edges (lines 459-461): the directly kept relationships followed by
    the winning tier-2 relationships in dict insertion order. -/
def finalEdges (centerId : String) (tier1 : List String) (rels : List Rel) :
    List Rel :=
  (processRels centerId tier1 [] rels).1
    ++ (processRels centerId tier1 [] rels).2.map (fun e => e.2.2)

/-- Rounding half to even on an exact rational, as Python round(). -/
def roundHalfEven (q : ℚ) : ℤ :=
  if q - (⌊q⌋ : ℚ) < 1 / 2 then ⌊q⌋
  else if (1 : ℚ) / 2 < q - (⌊q⌋ : ℚ) then ⌊q⌋ + 1
  else if ⌊q⌋ % 2 = 0 then ⌊q⌋ else ⌊q⌋ + 1

/-- round(w, 2): the weight rounded to 2 decimal places. -/
def round2 (q : ℚ) : ℚ := (roundHalfEven (q * 100) : ℚ) / 100

/-- Lexicographic comparison of character lists, by code point, as Python
    string comparison inside sorted(). -/
def charListLt : List Char → List Char → Bool
  | [], [] => false
  | [], _ :: _ => true
  | _ :: _, [] => false
  | c :: cs, d :: ds => if c < d then true else if d < c then false else charListLt cs ds

/-- Lexicographic string comparison. -/
def strLt (a b : String) : Bool := charListLt a.data b.data

/-- The sorted-pair deduplication key of a SIMILAR edge (lines 482-483). -/
def pairKey (a b : String) : String :=
  if strLt b a then b ++ "-" ++ a else a ++ "-" ++ b

/-- Display orientation (lines 486-498): arrows run center to tier-1 and
    tier-1 to tier-2. -/
def orient (centerId : String) (tier1 : List String) (r : Rel) : String × String :=
  if r.target = centerId then (centerId, r.source)
  else if r.source = centerId then (centerId, r.target)
  else if r.source ∈ tier1 then (r.source, r.target)
  else if r.target ∈ tier1 then (r.target, r.source)
  else (r.source, r.target)

/-- The edge element built from one kept relationship (lines 502-515): the
    weight field is the rounded jaccard_weight and is omitted when the
    relationship has none. -/
def mkEdgeElement (i : Nat) (vs vt : String) (r : Rel) : Element :=
  .edge { eid := "e_" ++ toString i, source := vs, target := vt,
          rtype := r.rtype, weight := r.jaccard_weight.map round2 }

/-- The emission loop over final_edges (lines 465-515): HAS_DOMAIN edges all
    point to the dom_-prefixed node; SIMILAR edges are deduplicated by their
    sorted-pair key and oriented; the enumerate index names the edge id. -/
def edgeElements (centerId : String) (tier1 : List String) :
    List String → Nat → List Rel → List Element
  | _, _, [] => []
  | added, i, r :: rest =>
    if r.rtype = "HAS_DOMAIN" then
      mkEdgeElement i r.source ("dom_" ++ r.target) r
        :: edgeElements centerId tier1 added (i + 1) rest
    else if r.rtype = "SIMILAR" then
      if pairKey r.source r.target ∈ added then
        edgeElements centerId tier1 added (i + 1) rest
      else
        mkEdgeElement i (orient centerId tier1 r).1 (orient centerId tier1 r).2 r
          :: edgeElements centerId tier1 (pairKey r.source r.target :: added) (i + 1) rest
    else
      mkEdgeElement i r.source r.target r
        :: edgeElements centerId tier1 added (i + 1) rest

/-- The element list built from a retrieved neighborhood
    (export_neighborhood_for_visualization body, lines 371-517). -/
def exportData (data : Neighborhood) : List Element :=
  centerElement data.center_protein
    :: (neighborElements
          (tier1Ids data.center_protein.uniprot_id data.relationships)
          [data.center_protein.uniprot_id] data.neighbors
        ++ domainElements data.domains
        ++ edgeElements data.center_protein.uniprot_id
            (tier1Ids data.center_protein.uniprot_id data.relationships) [] 0
            (finalEdges data.center_protein.uniprot_id
              (tier1Ids data.center_protein.uniprot_id data.relationships)
              data.relationships))

/-- export_neighborhood_for_visualization (lines 360-517): the empty list
    when the neighborhood lookup returns the empty result, otherwise the
    node and edge elements. -/
def export_neighborhood_for_visualization (g : GraphStore) (pid : String)
    (depth : Nat) : List Element :=
  match get_protein_neighborhood g pid depth with
  | none => []
  | some data => exportData data

/-- The candidate predicate of the best-match competition: a SIMILAR
    relationship that is neither center-incident nor lateral and whose
    tier-2 endpoint is k. -/
def isCand (centerId : String) (tier1 : List String) (k : String) (r : Rel) :
    Bool :=
  decide (r.rtype = "SIMILAR")
    && !(decide (r.source = centerId) || decide (r.target = centerId))
    && !(decide (r.source ∈ tier1) && decide (r.target ∈ tier1))
    && decide (d2NodeOf centerId tier1 r = some k)

/-- The first entry of a list attaining the maximal value of f: a later entry
    replaces an earlier one only when strictly greater.  This follows the
    amended tie-break wording (first-encountered wins). -/
def firstMaxBy (f : Rel → ℚ) : List Rel → Option Rel
  | [] => none
  | r :: rest =>
    match firstMaxBy f rest with
    | none => some r
    | some m => if f r < f m then some m else some r

/-- Left fold of the best-match competition for one key: the accumulator is
    replaced only when a later weight is strictly greater. -/
def bestFold : Option (ℚ × Rel) → List Rel → Option (ℚ × Rel)
  | cur, [] => cur
  | none, r :: rest => bestFold (some (relWeight r, r)) rest
  | some (w', r'), r :: rest =>
    bestFold (some (if w' < relWeight r then (relWeight r, r) else (w', r'))) rest

/-- The SIMILAR output edges pointing into the node w. -/
def simEdgesInto (w : String) (els : List Element) : List EdgeData :=
  els.filterMap (fun el =>
    match el with
    | .edge ed => if ed.rtype = "SIMILAR" ∧ ed.target = w then some ed else none
    | .node _ => none)

/-- Concrete store for the depth-1 example of C6: center X with two
    neighbors Y (weight 0.5) and Z (weight 0.2) and one lateral edge Y-Z. -/
def storeC6 : GraphStore :=
  { proteins := [{ uniprot_id := "X" }, { uniprot_id := "Y" }, { uniprot_id := "Z" }]
    sims := [⟨"X", "Y", 1 / 2⟩, ⟨"X", "Z", 1 / 5⟩, ⟨"Y", "Z", 3 / 10⟩]
    domRels := []
    doms := [] }

/-- Concrete store for the C5 counterexample: tier-2 node W reachable from
    tier-1 nodes A and B with equal weights, the B edge returned first. -/
def storeC5 : GraphStore :=
  { proteins := [{ uniprot_id := "X" }, { uniprot_id := "A" },
                 { uniprot_id := "B" }, { uniprot_id := "W" }]
    sims := [⟨"X", "A", 1 / 2⟩, ⟨"X", "B", 1 / 2⟩,
             ⟨"B", "W", 2 / 5⟩, ⟨"A", "W", 2 / 5⟩]
    domRels := []
    doms := [] }

/-- Concrete store for the C4 witness: tier-2 node W reachable from tier-1
    nodes A (weight 0.6) and B (weight 0.4). -/
def storeC4 : GraphStore :=
  { proteins := [{ uniprot_id := "X" }, { uniprot_id := "A" },
                 { uniprot_id := "B" }, { uniprot_id := "W" }]
    sims := [⟨"X", "A", 1 / 2⟩, ⟨"X", "B", 1 / 2⟩,
             ⟨"A", "W", 3 / 5⟩, ⟨"B", "W", 2 / 5⟩]
    domRels := []
    doms := [] }

/-- Concrete store for the C8 witness: a single isolated protein L with no
    relationships at all, and no protein named Q. -/
def storeC8 : GraphStore :=
  { proteins := [{ uniprot_id := "L" }]
    sims := []
    domRels := []
    doms := [] }

/- ------------------------------------------------------------------ -/
/- Helper lemmas                                                       -/
/- ------------------------------------------------------------------ -/

theorem split_semicolon_field_none : split_semicolon_field none = [] := rfl

theorem split_semicolon_field_some (s : String) :
    split_semicolon_field (some s)
      = ((pySplit s).map pyStrip).filter (fun x => decide (x ≠ "")) := rfl

theorem ecTokens_none : ecTokens none = [] := rfl

theorem ecTokens_some (s : String) : ecTokens (some s) = pySplit s := rfl

theorem find?_entity_eq_of_mem (entities : List Entity)
    (Hnd : (entities.map Entity.id).Nodup) (e : Entity) (he : e ∈ entities) :
    entities.find? (fun x => decide (x.id = e.id)) = some e := by
  have hsome : (entities.find? (fun x => decide (x.id = e.id))).isSome :=
    List.find?_isSome.mpr ⟨e, he, by simp⟩
  obtain ⟨e', he'⟩ := Option.isSome_iff_exists.mp hsome
  have hid : e'.id = e.id := by simpa using List.find?_some he'
  have hmem : e' ∈ entities := List.mem_of_find?_eq_some he'
  have : e' = e := List.inj_on_of_nodup_map Hnd hmem he hid
  rw [he', this]

theorem mem_carriers_iff (entities : List Entity)
    (Hnd : (entities.map Entity.id).Nodup) (u d : String) :
    u ∈ carriers entities d ↔ d ∈ domSet entities u := by
  constructor
  · intro h
    obtain ⟨e, hmem, hid⟩ := List.mem_map.mp h
    obtain ⟨he, hd⟩ := List.mem_filter.mp hmem
    have hfind : entities.find? (fun x => decide (x.id = u)) = some e := by
      rw [← hid]
      exact find?_entity_eq_of_mem entities Hnd e he
    rw [domSet, hfind]
    simpa using of_decide_eq_true hd
  · intro h
    rw [domSet] at h
    cases hfind : entities.find? (fun x => decide (x.id = u)) with
    | none => rw [hfind] at h; simp at h
    | some e =>
      rw [hfind] at h
      have hd : d ∈ e.domain_ids := List.mem_toFinset.mp h
      have hid : e.id = u := by simpa using List.find?_some hfind
      have he : e ∈ entities := List.mem_of_find?_eq_some hfind
      rw [← hid]
      exact List.mem_map.mpr ⟨e, List.mem_filter.mpr ⟨he, by simpa using hd⟩, rfl⟩

theorem domSet_subset_allDomains (entities : List Entity) (u : String) :
    domSet entities u ⊆ (allDomains entities).toFinset := by
  intro d hd
  rw [domSet] at hd
  cases hfind : entities.find? (fun x => decide (x.id = u)) with
  | none => rw [hfind] at hd; simp at hd
  | some e =>
    rw [hfind] at hd
    have he : e ∈ entities := List.mem_of_find?_eq_some hfind
    rw [List.mem_toFinset]
    rw [allDomains, List.mem_dedup, List.mem_flatten]
    exact ⟨e.domain_ids, List.mem_map.mpr ⟨e, he, rfl⟩, List.mem_toFinset.mp hd⟩

theorem domainCount_eq_card (entities : List Entity) (u : String) :
    domainCount entities u = (domSet entities u).card := by
  rw [domainCount, domSet]
  cases hfind : entities.find? (fun x => decide (x.id = u)) with
  | none => simp
  | some e => rw [List.card_toFinset]

theorem sharedCount_eq_card (entities : List Entity)
    (Hnd : (entities.map Entity.id).Nodup) (u v : String) :
    sharedCount entities u v = ((domSet entities u) ∩ (domSet entities v)).card := by
  rw [sharedCount]
  have hnodup : (allDomains entities).Nodup := List.nodup_dedup _
  set p : String → Bool :=
    fun d => decide (u ∈ carriers entities d) && decide (v ∈ carriers entities d) with hp
  rw [← List.toFinset_card_of_nodup (hnodup.filter p), List.toFinset_filter]
  congr 1
  ext d
  simp only [Finset.mem_filter, Finset.mem_inter, hp, Bool.and_eq_true, decide_eq_true_eq]
  rw [mem_carriers_iff entities Hnd u d, mem_carriers_iff entities Hnd v d]
  constructor
  · rintro ⟨_, h1, h2⟩; exact ⟨h1, h2⟩
  · rintro ⟨h1, h2⟩
    exact ⟨List.mem_toFinset.mp (domSet_subset_allDomains entities u h1) |> List.mem_toFinset.mpr, h1, h2⟩

theorem unionCount_eq_card (entities : List Entity)
    (Hnd : (entities.map Entity.id).Nodup) (u v : String) :
    domainCount entities u + domainCount entities v - sharedCount entities u v
      = ((domSet entities u) ∪ (domSet entities v)).card := by
  rw [domainCount_eq_card, domainCount_eq_card, sharedCount_eq_card entities Hnd]
  have h := Finset.card_inter_add_card_union (domSet entities u) (domSet entities v)
  omega

theorem engine_weight_eq (entities : List Entity)
    (Hnd : (entities.map Entity.id).Nodup) (u v : String) :
    ((sharedCount entities u v : ℚ)
      / ((domainCount entities u + domainCount entities v
            - sharedCount entities u v : Nat) : ℚ))
      = jaccardSets entities u v := by
  rw [jaccardSets, ← sharedCount_eq_card entities Hnd u v,
    ← unionCount_eq_card entities Hnd u v]

theorem listPairs_mem (l : List String) (p : String × String)
    (hp : p ∈ listPairs l) : p.1 ∈ l ∧ p.2 ∈ l := by
  induction l with
  | nil => simp [listPairs] at hp
  | cons x xs ih =>
    rw [listPairs, List.mem_append] at hp
    cases hp with
    | inl h =>
      obtain ⟨y, hy, hxy⟩ := List.mem_map.mp h
      rw [← hxy]
      exact ⟨List.mem_cons_self x xs, List.mem_cons_of_mem x hy⟩
    | inr h =>
      obtain ⟨h1, h2⟩ := ih h
      exact ⟨List.mem_cons_of_mem x h1, List.mem_cons_of_mem x h2⟩

theorem listPairs_length (l : List String) :
    (listPairs l).length = l.length.choose 2 := by
  induction l with
  | nil => simp [listPairs]
  | cons x xs ih =>
    rw [listPairs, List.length_append, List.length_map, ih, List.length_cons,
      Nat.choose_succ_succ xs.length 1, Nat.choose_one_right]

theorem length_filterMap_of_all_some {α β : Type} (f : α → Option β) (l : List α)
    (h : ∀ a ∈ l, (f a).isSome) : (l.filterMap f).length = l.length := by
  induction l with
  | nil => simp
  | cons x xs ih =>
    rw [List.filterMap_cons]
    cases hfx : f x with
    | none =>
      have := h x (List.mem_cons_self x xs)
      rw [hfx] at this
      simp at this
    | some b =>
      rw [List.length_cons, List.length_cons]
      rw [ih (fun a ha => h a (List.mem_cons_of_mem x ha))]

theorem lookupProtein_id (g : GraphStore) (pid : String) (p : ProteinNode)
    (h : lookupProtein g pid = some p) : p.uniprot_id = pid := by
  simpa using List.find?_some h

theorem dedup_replicate_succ {α : Type} [DecidableEq α] (a : α) (n : Nat) :
    (List.replicate (n + 1) a).dedup = [a] := by
  induction n with
  | zero => simp
  | succ m ih =>
    rw [List.replicate_succ]
    rw [List.dedup_cons_of_mem (List.mem_replicate.mpr ⟨Nat.succ_ne_zero m, rfl⟩)]
    exact ih

/- ------------------------------------------------------------------ -/
/- Theorems: C1, C3, C9                                                -/
/- ------------------------------------------------------------------ -/

/-- Claim C1 as stated is false on the code: in build_graph.py the per-entity
    domain_count recomputation (precalculate_domain_counts) runs only AFTER
    run_gds_similarity has already computed and persisted the SIMILAR edges,
    not before it. -/
theorem c1_counterexample :
    ¬ stepIdx full_rebuild .recomputeDomainCounts
        < stepIdx full_rebuild .gdsSimilarityWrite := by
  decide

/-- Claim C1 (amended): the full rebuild executes constraints, import, deletion
    of SIMILAR edges, GDS projection, the GDS similarity computation-and-write,
    projection drop, the per-entity domain_count recomputation, and the
    shared/union enrichment, in that order; the domain_count recomputation
    completes before the enrichment fills shared_domains/union_domains, but it
    runs only after the similarity edges have been computed and persisted. -/
theorem c1_rebuild_order :
    full_rebuild =
      [.ensureConstraints, .importBatches, .deleteSimilarEdges, .projectGraph,
       .gdsSimilarityWrite, .dropProjection, .recomputeDomainCounts,
       .enrichSharedUnion] ∧
    stepIdx full_rebuild .gdsSimilarityWrite
      < stepIdx full_rebuild .recomputeDomainCounts ∧
    stepIdx full_rebuild .recomputeDomainCounts
      < stepIdx full_rebuild .enrichSharedUnion ∧
    stepIdx full_rebuild .deleteSimilarEdges
      < stepIdx full_rebuild .gdsSimilarityWrite := by
  decide

/-- Claim C3: the weight-to-count reconstruction is exact when J is the exact
    Jaccard value of integer counts: for A, B at least 1 and 1 <= s <= min A B,
    with J = s / (A + B - s), the enrichment recovers intersect = s and
    union = A + B - s. -/
theorem c3_enricher_roundtrip (A B s : Nat)
    (hA : 1 ≤ A) (hB : 1 ≤ B) (hs : 1 ≤ s) (_hsA : s ≤ A) (hsB : s ≤ B) :
    calculate_shared_union_domains_math A B
        ((s : ℚ) / ((A : ℚ) + (B : ℚ) - (s : ℚ)))
      = ((s : ℤ), (A : ℤ) + (B : ℤ) - (s : ℤ)) := by
  have hden : (0 : ℚ) < (A : ℚ) + (B : ℚ) - (s : ℚ) := by
    have h1 : (s : ℚ) ≤ (B : ℚ) := by exact_mod_cast hsB
    have h2 : (1 : ℚ) ≤ (A : ℚ) := by exact_mod_cast hA
    linarith
  have hden' : ((A : ℚ) + (B : ℚ) - (s : ℚ)) ≠ 0 := ne_of_gt hden
  have hJ : (0 : ℚ) ≤ (s : ℚ) / ((A : ℚ) + (B : ℚ) - (s : ℚ)) := by
    apply div_nonneg
    · exact_mod_cast Nat.zero_le s
    · exact le_of_lt hden
  have hJ1 : (1 : ℚ) + (s : ℚ) / ((A : ℚ) + (B : ℚ) - (s : ℚ)) ≠ 0 := by
    positivity
  have key : (s : ℚ) / ((A : ℚ) + (B : ℚ) - (s : ℚ)) * ((A : ℚ) + (B : ℚ))
      / (1 + (s : ℚ) / ((A : ℚ) + (B : ℚ) - (s : ℚ))) = (s : ℚ) := by
    field_simp
  unfold calculate_shared_union_domains_math
  rw [key, round_natCast]

/-- Witness for C3 at the claim's concrete instance A = 10, B = 8, s = 4. -/
theorem c3_enricher_roundtrip_witness :
    calculate_shared_union_domains_math 10 8
        (((4 : Nat) : ℚ) / (((10 : Nat) : ℚ) + ((8 : Nat) : ℚ) - ((4 : Nat) : ℚ)))
      = (((4 : Nat) : ℤ), ((10 : Nat) : ℤ) + ((8 : Nat) : ℤ) - ((4 : Nat) : ℤ)) :=
  c3_enricher_roundtrip 10 8 4 (by decide) (by decide) (by decide) (by decide)
    (by decide)

/-- Claim C9: for every ingested row, the stored is_labelled flag is true
    exactly when ec_numbers is nonempty, and ec_numbers is nonempty exactly
    when the row's EC-number field contains a semicolon-separated token that
    is nonempty after stripping; is_labelled is thus determined by ec_numbers. -/
theorem c9_is_labelled_iff (organism_default : Option String)
    (chunk : List TsvRow) (doc : MongoDoc)
    (hmem : doc ∈ process_and_insert_chunk organism_default chunk) :
    (doc.is_labelled = true ↔ doc.ec_numbers ≠ []) ∧
    ∃ row ∈ chunk, row.entry = some doc.uniprot_id ∧
      doc.ec_numbers = split_semicolon_field row.ec_number ∧
      (doc.is_labelled = true ↔ ∃ t ∈ ecTokens row.ec_number, pyStrip t ≠ "") := by
  obtain ⟨row, hrow, hbuild⟩ := List.mem_filterMap.mp hmem
  obtain ⟨entry, hentry⟩ : ∃ e, row.entry = some e := by
    cases h : row.entry with
    | none => rw [buildDoc, h] at hbuild; exact absurd hbuild (by simp)
    | some e => exact ⟨e, rfl⟩
  rw [buildDoc, hentry] at hbuild
  have hdoc := Option.some.inj hbuild
  have hec : doc.ec_numbers = split_semicolon_field row.ec_number := by
    rw [← hdoc]
  have hid : doc.uniprot_id = entry := by rw [← hdoc]
  have hlab : doc.is_labelled
      = decide (0 < (split_semicolon_field row.ec_number).length) := by
    rw [← hdoc]
  have hiff : doc.is_labelled = true ↔ doc.ec_numbers ≠ [] := by
    rw [hlab, hec]
    simp [List.length_pos]
  refine ⟨hiff, row, hrow, by rw [hentry, hid], hec, ?_⟩
  rw [hiff, hec]
  cases hval : row.ec_number with
  | none =>
    rw [split_semicolon_field_none, ecTokens_none]
    simp
  | some s =>
    rw [split_semicolon_field_some, ecTokens_some]
    constructor
    · intro hne
      match hmatch : ((pySplit s).map pyStrip).filter (fun x => decide (x ≠ "")) with
      | [] => exact absurd hmatch hne
      | t :: ts =>
        have hmem2 : t ∈ ((pySplit s).map pyStrip).filter (fun x => decide (x ≠ "")) := by
          rw [hmatch]; simp
        obtain ⟨ht, htne⟩ := List.mem_filter.mp hmem2
        obtain ⟨u, hu, hut⟩ := List.mem_map.mp ht
        refine ⟨u, hu, ?_⟩
        rw [hut]
        simpa using htne
    · rintro ⟨t, ht, htne⟩
      intro hnil
      have hmem3 : pyStrip t ∈ ((pySplit s).map pyStrip).filter (fun x => decide (x ≠ "")) := by
        apply List.mem_filter.mpr
        exact ⟨List.mem_map.mpr ⟨t, ht, rfl⟩, by simpa using htne⟩
      rw [hnil] at hmem3
      simp at hmem3

/-- Witness for C9 on a concrete chunk: one row with EC field "1.1.1.1; 2.7.11.1"
    produces a document, and the theorem applies to it. -/
theorem c9_is_labelled_iff_witness :
    (({ uniprot_id := "P1", entry_name := none, organism := some "Mouse",
        protein_names := [], interpro_ids := [],
        ec_numbers := ["1.1.1.1", "2.7.11.1"], is_labelled := true } : MongoDoc).is_labelled
          = true ↔ (["1.1.1.1", "2.7.11.1"] : List String) ≠ []) ∧
    ∃ row ∈ [({ entry := some "P1", organism := some "Mouse",
                ec_number := some "1.1.1.1; 2.7.11.1" } : TsvRow)],
      row.entry = some "P1" ∧
      (["1.1.1.1", "2.7.11.1"] : List String) = split_semicolon_field row.ec_number ∧
      (true = true ↔ ∃ t ∈ ecTokens row.ec_number, pyStrip t ≠ "") :=
  c9_is_labelled_iff none
    [{ entry := some "P1", organism := some "Mouse",
       ec_number := some "1.1.1.1; 2.7.11.1" }]
    { uniprot_id := "P1", entry_name := none, organism := some "Mouse",
      protein_names := [], interpro_ids := [],
      ec_numbers := ["1.1.1.1", "2.7.11.1"], is_labelled := true }
    (by decide)

/-- Claim C2: every edge emitted by the similarity computation has
    jaccard_weight at least the threshold, its weight is the exact Jaccard
    coefficient of the two entities' domain sets, and the boundary is
    inclusive: any unordered pair sharing at least one domain whose Jaccard
    coefficient is greater than or equal to the threshold — in particular
    equal to it — receives an edge. -/
theorem c2_threshold_inclusive (entities : List Entity) (threshold : ℚ)
    (Hnd : (entities.map Entity.id).Nodup) :
    (∀ e ∈ similarityEngine entities threshold,
        threshold ≤ e.jaccard_weight ∧
        e.jaccard_weight = jaccardSets entities e.a e.b) ∧
    (∀ p ∈ listPairs (entities.map Entity.id),
        1 ≤ sharedCount entities p.1 p.2 →
        threshold ≤ jaccardSets entities p.1 p.2 →
        ∃ e ∈ similarityEngine entities threshold,
          e.a = p.1 ∧ e.b = p.2 ∧
          e.jaccard_weight = jaccardSets entities p.1 p.2) := by
  constructor
  · intro e he
    rw [similarityEngine] at he
    obtain ⟨p, hp, hfp⟩ := List.mem_filterMap.mp he
    obtain ⟨hpmem, hpshared⟩ := List.mem_filter.mp hp
    simp only at hfp
    by_cases hth : threshold ≤ ((sharedCount entities p.1 p.2 : ℚ)
        / ((domainCount entities p.1 + domainCount entities p.2
              - sharedCount entities p.1 p.2 : Nat) : ℚ))
    · rw [if_pos hth] at hfp
      obtain rfl := Option.some.inj hfp
      refine ⟨hth, ?_⟩
      exact engine_weight_eq entities Hnd p.1 p.2
    · rw [if_neg hth] at hfp
      exact absurd hfp (by simp)
  · intro p hpmem hshared hth
    refine ⟨⟨p.1, p.2, (sharedCount entities p.1 p.2 : ℚ)
      / ((domainCount entities p.1 + domainCount entities p.2
            - sharedCount entities p.1 p.2 : Nat) : ℚ)⟩, ?_, rfl, rfl,
      engine_weight_eq entities Hnd p.1 p.2⟩
    rw [similarityEngine]
    apply List.mem_filterMap.mpr
    refine ⟨p, List.mem_filter.mpr ⟨hpmem, by simpa using hshared⟩, ?_⟩
    simp only
    rw [if_pos]
    rw [engine_weight_eq entities Hnd p.1 p.2]
    exact hth

section
attribute [local semireducible] Rat.mul Rat.inv Rat.add Rat.sub Rat.ofScientific

/-- Witness for C2 at the default threshold 1/10 with a pair whose exact
    Jaccard coefficient equals the threshold (6 and 5 domains, 1 shared,
    union 10): the boundary pair receives an edge. -/
theorem c2_threshold_inclusive_witness :
    ∃ e ∈ similarityEngine
        [⟨"A", ["d1", "d2", "d3", "d4", "d5", "d6"]⟩,
         ⟨"B", ["d1", "e2", "e3", "e4", "e5"]⟩] (1 / 10),
      e.a = ("A", "B").1 ∧ e.b = ("A", "B").2 ∧
      e.jaccard_weight = jaccardSets
        [⟨"A", ["d1", "d2", "d3", "d4", "d5", "d6"]⟩,
         ⟨"B", ["d1", "e2", "e3", "e4", "e5"]⟩] ("A", "B").1 ("A", "B").2 :=
  (c2_threshold_inclusive
      [⟨"A", ["d1", "d2", "d3", "d4", "d5", "d6"]⟩,
       ⟨"B", ["d1", "e2", "e3", "e4", "e5"]⟩] (1 / 10) (by decide)).2
    ("A", "B") (by decide) (by decide) (by decide)

/-- Claim C7 as stated is false on the code: the gds.nodeSimilarity.write call
    issued by run_gds_similarity passes no fan-out cap of any kind (no
    degreeCutoff, no topK, no dedicated cap key), and the similarity
    computation fully enumerates the pairs of a 4-carrier domain (all 6
    pairs are emitted). -/
theorem c7_counterexample :
    gdsNodeSimilarityConfigKeys
      = ["similarityMetric", "writeRelationshipType", "writeProperty",
         "similarityCutoff", "concurrency"] ∧
    "degreeCutoff" ∉ gdsNodeSimilarityConfigKeys ∧
    "topK" ∉ gdsNodeSimilarityConfigKeys ∧
    "fanOutCap" ∉ gdsNodeSimilarityConfigKeys ∧
    (similarityEngine
        [⟨"P1", ["D"]⟩, ⟨"P2", ["D"]⟩, ⟨"P3", ["D"]⟩, ⟨"P4", ["D"]⟩] 0).length
      = Nat.choose 4 2 := by
  decide

end

/-- Claim C8: for every store, center id and depth, the neighborhood query
    returns the empty result (none) and the export the empty list when the
    center id matches no entity, while a center that exists always yields a
    populated result whose export contains the center node; a center with no
    incident SIMILAR relationships and no domains yields empty neighbor,
    relationship and domain lists while still being a present result —
    distinguishable from the not-found case. -/
theorem c8_notfound_vs_empty (g : GraphStore) (pid : String) (depth : Nat) :
    (lookupProtein g pid = none →
      get_protein_neighborhood g pid depth = none ∧
      export_neighborhood_for_visualization g pid depth = []) ∧
    (∀ p, lookupProtein g pid = some p →
      ∃ nb, get_protein_neighborhood g pid depth = some nb ∧
        nb.center_protein = p ∧
        centerElement p ∈ export_neighborhood_for_visualization g pid depth ∧
        export_neighborhood_for_visualization g pid depth ≠ [] ∧
        ((∀ r ∈ g.sims, simIncident pid r = false) →
         (∀ dr ∈ g.domRels, dr.1 ≠ pid) →
          nb.neighbors = [] ∧ nb.relationships = [] ∧ nb.domains = [])) := by
  constructor
  · intro h
    constructor
    · rw [get_protein_neighborhood, h]
    · rw [export_neighborhood_for_visualization, get_protein_neighborhood, h]
  · intro p hp
    have hget : get_protein_neighborhood g pid depth
        = some { center_protein := p
                 neighbors := retrievedNeighbors g pid depth
                 relationships := retrievedRels g pid depth
                 domains := (centerDomainIds g pid).filterMap (lookupDomain g)
                 depth := depth } := by
      rw [get_protein_neighborhood, hp]
    have hexp : export_neighborhood_for_visualization g pid depth
        = exportData { center_protein := p
                       neighbors := retrievedNeighbors g pid depth
                       relationships := retrievedRels g pid depth
                       domains := (centerDomainIds g pid).filterMap (lookupDomain g)
                       depth := depth } := by
      rw [export_neighborhood_for_visualization, hget]
    refine ⟨_, hget, rfl, ?_, ?_, ?_⟩
    · rw [hexp, exportData]
      exact List.mem_cons_self _ _
    · rw [hexp, exportData]
      simp
    · intro hs hd
      have hcs : centerSims g pid = [] := by
        rw [centerSims]
        exact List.filter_eq_nil_iff.mpr (fun r hr => by simp [hs r hr])
      have ht1 : tier1Store g pid = [] := by
        rw [tier1Store, hcs]
        rfl
      have hd2 : depth2Sims g pid = [] := by
        rw [depth2Sims]
        exact List.filter_eq_nil_iff.mpr (fun r hr => by simp [hs r hr, ht1])
      have hcd : centerDomainIds g pid = [] := by
        rw [centerDomainIds]
        have hfil : g.domRels.filter (fun dr => decide (dr.1 = pid)) = [] :=
          List.filter_eq_nil_iff.mpr (fun dr hdr => by simp [hd dr hdr])
        rw [hfil]
        rfl
      refine ⟨?_, ?_, ?_⟩
      · show retrievedNeighbors g pid depth = []
        rw [retrievedNeighbors]
        by_cases hdep : depth = 1 <;> simp [hdep, hcs, hd2]
      · show retrievedRels g pid depth = []
        rw [retrievedRels, centerDomainRels, hcd]
        by_cases hdep : depth = 1 <;> simp [hdep, hcs, hd2]
      · show (centerDomainIds g pid).filterMap (lookupDomain g) = []
        rw [hcd]
        rfl

/-- Witness for C8 on a concrete store: center id Q is absent (empty result,
    empty export), center L is present with zero neighbors (populated center
    node, empty neighbor/relationship/domain lists). -/
theorem c8_notfound_vs_empty_witness :
    (get_protein_neighborhood storeC8 "Q" 1 = none ∧
      export_neighborhood_for_visualization storeC8 "Q" 1 = []) ∧
    (∃ nb, get_protein_neighborhood storeC8 "L" 1 = some nb ∧
      nb.center_protein = ({ uniprot_id := "L" } : ProteinNode) ∧
      centerElement { uniprot_id := "L" }
        ∈ export_neighborhood_for_visualization storeC8 "L" 1 ∧
      export_neighborhood_for_visualization storeC8 "L" 1 ≠ [] ∧
      (nb.neighbors = [] ∧ nb.relationships = [] ∧ nb.domains = [])) := by
  constructor
  · exact (c8_notfound_vs_empty storeC8 "Q" 1).1 rfl
  · obtain ⟨nb, h1, h2, h3, h4, h5⟩ :=
      (c8_notfound_vs_empty storeC8 "L" 1).2 { uniprot_id := "L" } rfl
    exact ⟨nb, h1, h2, h3, h4, h5 (by decide) (by decide)⟩

/-- Claim C7 (amended): the similarity computation accepts no fan-out cap —
    the GDS call is configured only with the metric, the written relationship
    type and property, the similarity cutoff and a concurrency level — and no
    cap bounds the work of a single domain: a single domain carried by n
    entities always contributes all n-choose-2 pairs. -/
theorem c7_no_fanout_cap :
    gdsNodeSimilarityConfigKeys
      = ["similarityMetric", "writeRelationshipType", "writeProperty",
         "similarityCutoff", "concurrency"] ∧
    ∀ ids : List String,
      (similarityEngine (ids.map (fun i => ⟨i, ["D"]⟩)) 0).length
        = ids.length.choose 2 := by
  refine ⟨rfl, ?_⟩
  intro ids
  set entities : List Entity := ids.map (fun i => ⟨i, ["D"]⟩) with hents
  have hids : entities.map Entity.id = ids := by
    rw [hents, List.map_map]
    exact List.map_id'' (fun _ => rfl) ids
  have hdomids : ∀ e ∈ entities, e.domain_ids = ["D"] := by
    intro e he
    obtain ⟨i, _, hie⟩ := List.mem_map.mp he
    rw [← hie]
  have hcarriers : ∀ u ∈ ids, u ∈ carriers entities "D" := by
    intro u hu
    rw [carriers]
    apply List.mem_map.mpr
    refine ⟨⟨u, ["D"]⟩, List.mem_filter.mpr ⟨?_, by simp⟩, rfl⟩
    rw [hents]
    exact List.mem_map.mpr ⟨u, hu, rfl⟩
  have hall : ids ≠ [] → allDomains entities = ["D"] := by
    intro hne
    rw [allDomains, hents, List.map_map]
    have hcomp : (Entity.domain_ids ∘ fun i => (⟨i, ["D"]⟩ : Entity))
        = fun _ => ["D"] := rfl
    rw [hcomp]
    have hjoin : ∀ l : List String,
        (l.map (fun _ => (["D"] : List String))).flatten
          = List.replicate l.length "D" := by
      intro l
      induction l with
      | nil => simp
      | cons x xs ih => simp [List.replicate_succ, ih]
    rw [hjoin]
    obtain ⟨x, xs, rfl⟩ := List.exists_cons_of_ne_nil hne
    rw [List.length_cons]
    exact dedup_replicate_succ "D" xs.length
  have hshared : ∀ u ∈ ids, ∀ v ∈ ids, sharedCount entities u v = 1 := by
    intro u hu v hv
    have hne : ids ≠ [] := by
      intro h; rw [h] at hu; simp at hu
    rw [sharedCount, hall hne]
    rw [List.filter_cons_of_pos]
    · simp
    · simp only [Bool.and_eq_true, decide_eq_true_eq]
      exact ⟨hcarriers u hu, hcarriers v hv⟩
  have hdc : ∀ u ∈ ids, domainCount entities u = 1 := by
    intro u hu
    have hsome : (entities.find? (fun x => decide (x.id = u))).isSome :=
      List.find?_isSome.mpr
        ⟨⟨u, ["D"]⟩, by rw [hents]; exact List.mem_map.mpr ⟨u, hu, rfl⟩, by simp⟩
    rw [domainCount]
    cases hfind : entities.find? (fun x => decide (x.id = u)) with
    | none => rw [hfind] at hsome; simp at hsome
    | some e =>
      show e.domain_ids.dedup.length = 1
      rw [hdomids e (List.mem_of_find?_eq_some hfind)]
      rfl
  rw [similarityEngine, hids]
  have hfilter : (listPairs ids).filter
      (fun p => decide (1 ≤ sharedCount entities p.1 p.2)) = listPairs ids := by
    apply List.filter_eq_self.mpr
    intro p hp
    obtain ⟨h1, h2⟩ := listPairs_mem ids p hp
    simp [hshared p.1 h1 p.2 h2]
  rw [hfilter]
  rw [length_filterMap_of_all_some]
  · exact listPairs_length ids
  · intro p hp
    obtain ⟨h1, h2⟩ := listPairs_mem ids p hp
    simp only [hshared p.1 h1 p.2 h2, hdc p.1 h1, hdc p.2 h2]
    norm_num

theorem neighborElements_no_edge (t1 : List String) :
    ∀ (ns : List ProteinNode) (ex : List String) (ed : EdgeData),
    Element.edge ed ∈ neighborElements t1 ex ns → False := by
  intro ns
  induction ns with
  | nil => intro ex ed h; simp [neighborElements] at h
  | cons n rest ih =>
    intro ex ed h
    rw [neighborElements] at h
    by_cases hmem : n.uniprot_id ∈ ex
    · rw [if_pos hmem] at h
      exact ih ex ed h
    · rw [if_neg hmem] at h
      cases List.mem_cons.mp h with
      | inl heq => simp at heq
      | inr ht => exact ih _ ed ht

theorem domainElements_no_edge (doms : List DomainNode) (ed : EdgeData) :
    Element.edge ed ∈ domainElements doms → False := by
  intro h
  rw [domainElements] at h
  obtain ⟨d, _, heq⟩ := List.mem_map.mp h
  simp at heq

theorem exportData_edge_mem (data : Neighborhood) (ed : EdgeData)
    (h : Element.edge ed ∈ exportData data) :
    Element.edge ed ∈ edgeElements data.center_protein.uniprot_id
      (tier1Ids data.center_protein.uniprot_id data.relationships) [] 0
      (finalEdges data.center_protein.uniprot_id
        (tier1Ids data.center_protein.uniprot_id data.relationships)
        data.relationships) := by
  rw [exportData] at h
  cases List.mem_cons.mp h with
  | inl heq => simp [centerElement] at heq
  | inr h2 =>
    cases List.mem_append.mp h2 with
    | inl h3 =>
      cases List.mem_append.mp h3 with
      | inl h4 => exact absurd h4 (fun hh => neighborElements_no_edge _ _ _ ed hh)
      | inr h5 => exact absurd h5 (domainElements_no_edge _ ed)
    | inr h6 => exact h6

theorem edgeElements_mem (cid : String) (t1 : List String) :
    ∀ (fes : List Rel) (added : List String) (i : Nat) (ed : EdgeData),
    Element.edge ed ∈ edgeElements cid t1 added i fes →
    ∃ r ∈ fes, ed.rtype = r.rtype ∧ ed.weight = r.jaccard_weight.map round2 ∧
      (r.rtype = "SIMILAR" →
        ed.source = (orient cid t1 r).1 ∧ ed.target = (orient cid t1 r).2) := by
  intro fes
  induction fes with
  | nil => intro added i ed h; simp [edgeElements] at h
  | cons r rest ih =>
    intro added i ed h
    by_cases h1 : r.rtype = "HAS_DOMAIN"
    · rw [edgeElements, if_pos h1] at h
      cases List.mem_cons.mp h with
      | inl heq =>
        obtain rfl : ed = ⟨"e_" ++ toString i, r.source, "dom_" ++ r.target,
            r.rtype, r.jaccard_weight.map round2⟩ := by
          simpa [mkEdgeElement] using heq
        refine ⟨r, List.mem_cons_self r rest, rfl, rfl, ?_⟩
        intro hS
        exact absurd (h1.symm.trans hS) (by decide)
      | inr ht =>
        obtain ⟨r', hr', hp⟩ := ih _ _ ed ht
        exact ⟨r', List.mem_cons_of_mem r hr', hp⟩
    · by_cases h2 : r.rtype = "SIMILAR"
      · by_cases h3 : pairKey r.source r.target ∈ added
        · rw [edgeElements, if_neg h1, if_pos h2, if_pos h3] at h
          obtain ⟨r', hr', hp⟩ := ih _ _ ed h
          exact ⟨r', List.mem_cons_of_mem r hr', hp⟩
        · rw [edgeElements, if_neg h1, if_pos h2, if_neg h3] at h
          cases List.mem_cons.mp h with
          | inl heq =>
            obtain rfl : ed = ⟨"e_" ++ toString i, (orient cid t1 r).1,
                (orient cid t1 r).2, r.rtype, r.jaccard_weight.map round2⟩ := by
              simpa [mkEdgeElement] using heq
            exact ⟨r, List.mem_cons_self r rest, rfl, rfl, fun _ => ⟨rfl, rfl⟩⟩
          | inr ht =>
            obtain ⟨r', hr', hp⟩ := ih _ _ ed ht
            exact ⟨r', List.mem_cons_of_mem r hr', hp⟩
      · rw [edgeElements, if_neg h1, if_neg h2] at h
        cases List.mem_cons.mp h with
        | inl heq =>
          obtain rfl : ed = ⟨"e_" ++ toString i, r.source, r.target, r.rtype,
              r.jaccard_weight.map round2⟩ := by
            simpa [mkEdgeElement] using heq
          exact ⟨r, List.mem_cons_self r rest, rfl, rfl, fun hS => absurd hS h2⟩
        | inr ht =>
          obtain ⟨r', hr', hp⟩ := ih _ _ ed ht
          exact ⟨r', List.mem_cons_of_mem r hr', hp⟩

theorem processRels_fst (cid : String) (t1 : List String) :
    ∀ (rels : List Rel) (bm : List (String × ℚ × Rel)),
    (processRels cid t1 bm rels).1 = rels.filter (fun r =>
      decide (r.rtype = "HAS_DOMAIN")
        || (decide (r.rtype = "SIMILAR")
            && (decide (r.source = cid) || decide (r.target = cid)))) := by
  intro rels
  induction rels with
  | nil => intro bm; rfl
  | cons r rest ih =>
    intro bm
    rw [List.filter_cons]
    by_cases h1 : r.rtype = "HAS_DOMAIN"
    · rw [processRels, if_pos h1, ih bm, if_pos (by simp [h1])]
    · by_cases h2 : r.rtype = "SIMILAR"
      · by_cases h3 : r.source = cid ∨ r.target = cid
        · rw [processRels, if_neg h1, if_pos h2, if_pos h3, ih bm,
            if_pos (by simp [h1, h2]; exact h3)]
        · obtain ⟨h3a, h3b⟩ := not_or.mp h3
          rw [if_neg (by simp [h1, h2, h3a, h3b])]
          by_cases h4 : r.source ∈ t1 ∧ r.target ∈ t1
          · rw [processRels, if_neg h1, if_pos h2, if_neg h3, if_pos h4]
            exact ih bm
          · rw [processRels, if_neg h1, if_pos h2, if_neg h3, if_neg h4]
            cases hd2 : d2NodeOf cid t1 r with
            | some k => exact ih _
            | none => exact ih bm
      · rw [if_neg (by simp [h1, h2])]
        rw [processRels, if_neg h1, if_neg h2]
        exact ih bm

theorem updateBest_mem :
    ∀ (m : List (String × ℚ × Rel)) (k : String) (w : ℚ) (r : Rel)
      (e : String × ℚ × Rel),
    e ∈ updateBest m k w r → e ∈ m ∨ e = (k, w, r) := by
  intro m
  induction m with
  | nil =>
    intro k w r e h
    rw [updateBest] at h
    right
    simpa using h
  | cons x rest ih =>
    intro k w r e h
    obtain ⟨k', w', r'⟩ := x
    rw [updateBest] at h
    by_cases hk : k = k'
    · rw [if_pos hk] at h
      by_cases hw : w' < w
      · rw [if_pos hw] at h
        cases List.mem_cons.mp h with
        | inl heq => right; exact heq
        | inr ht => left; exact List.mem_cons_of_mem _ ht
      · rw [if_neg hw] at h
        cases List.mem_cons.mp h with
        | inl heq => left; rw [heq]; exact List.mem_cons_self _ _
        | inr ht => left; exact List.mem_cons_of_mem _ ht
    · rw [if_neg hk] at h
      cases List.mem_cons.mp h with
      | inl heq => left; rw [heq]; exact List.mem_cons_self _ _
      | inr ht =>
        cases ih k w r e ht with
        | inl hm => left; exact List.mem_cons_of_mem _ hm
        | inr heq => right; exact heq

theorem processRels_snd_mem (cid : String) (t1 : List String) :
    ∀ (rels : List Rel) (bm : List (String × ℚ × Rel)) (e : String × ℚ × Rel),
    e ∈ (processRels cid t1 bm rels).2 →
    e ∈ bm ∨ (e.2.2 ∈ rels ∧ e.2.1 = relWeight e.2.2
      ∧ isCand cid t1 e.1 e.2.2 = true) := by
  intro rels
  induction rels with
  | nil => intro bm e h; left; exact h
  | cons r rest ih =>
    intro bm e h
    by_cases h1 : r.rtype = "HAS_DOMAIN"
    · rw [processRels, if_pos h1] at h
      cases ih bm e h with
      | inl hm => left; exact hm
      | inr hp => right; exact ⟨List.mem_cons_of_mem r hp.1, hp.2⟩
    · by_cases h2 : r.rtype = "SIMILAR"
      · by_cases h3 : r.source = cid ∨ r.target = cid
        · rw [processRels, if_neg h1, if_pos h2, if_pos h3] at h
          cases ih bm e h with
          | inl hm => left; exact hm
          | inr hp => right; exact ⟨List.mem_cons_of_mem r hp.1, hp.2⟩
        · by_cases h4 : r.source ∈ t1 ∧ r.target ∈ t1
          · rw [processRels, if_neg h1, if_pos h2, if_neg h3, if_pos h4] at h
            cases ih bm e h with
            | inl hm => left; exact hm
            | inr hp => right; exact ⟨List.mem_cons_of_mem r hp.1, hp.2⟩
          · rw [processRels, if_neg h1, if_pos h2, if_neg h3, if_neg h4] at h
            cases hd2 : d2NodeOf cid t1 r with
            | some k =>
              rw [hd2] at h
              cases ih _ e h with
              | inl hub =>
                cases updateBest_mem bm k (relWeight r) r e hub with
                | inl hm => left; exact hm
                | inr heq =>
                  right
                  rw [heq]
                  refine ⟨List.mem_cons_self r rest, rfl, ?_⟩
                  rw [not_or] at h3
                  simp [isCand, h2, hd2, h3.1, h3.2]
                  exact not_and_or.mp h4
              | inr hp => right; exact ⟨List.mem_cons_of_mem r hp.1, hp.2⟩
            | none =>
              rw [hd2] at h
              cases ih bm e h with
              | inl hm => left; exact hm
              | inr hp => right; exact ⟨List.mem_cons_of_mem r hp.1, hp.2⟩
      · rw [processRels, if_neg h1, if_neg h2] at h
        cases ih bm e h with
        | inl hm => left; exact hm
        | inr hp => right; exact ⟨List.mem_cons_of_mem r hp.1, hp.2⟩

theorem isCand_rtype (cid : String) (t1 : List String) (k : String) (r : Rel)
    (h : isCand cid t1 k r = true) : r.rtype = "SIMILAR" := by
  rw [isCand] at h
  simp only [Bool.and_eq_true, decide_eq_true_eq] at h
  exact h.1.1.1

theorem finalEdges_mem (cid : String) (t1 : List String) (rels : List Rel)
    (r : Rel) (h : r ∈ finalEdges cid t1 rels) :
    r ∈ rels ∧ (r.rtype = "HAS_DOMAIN" ∨ r.rtype = "SIMILAR") := by
  rw [finalEdges] at h
  cases List.mem_append.mp h with
  | inl hf =>
    rw [processRels_fst] at hf
    have hm := List.mem_filter.mp hf
    refine ⟨hm.1, ?_⟩
    have hb := hm.2
    simp only [Bool.or_eq_true, Bool.and_eq_true, decide_eq_true_eq] at hb
    cases hb with
    | inl hd => left; exact hd
    | inr hs => right; exact hs.1
  | inr hb =>
    obtain ⟨e, he, heq⟩ := List.mem_map.mp hb
    have hmem := processRels_snd_mem cid t1 rels [] e he
    have hp := hmem.resolve_left (by simp)
    rw [← heq]
    exact ⟨hp.1, Or.inr (isCand_rtype cid t1 e.1 e.2.2 hp.2.2)⟩

/-- Claim C10: every SIMILAR or HAS_DOMAIN edge in the visualization payload
    carries weight = round(jaccard_weight, 2) exactly when its underlying
    relationship has a jaccard_weight, omits the weight field when the
    relationship has none, and the best-match comparison treats a missing
    jaccard_weight as 0. -/
theorem c10_weight_field :
    (∀ (data : Neighborhood) (ed : EdgeData),
        Element.edge ed ∈ exportData data →
        ∃ r ∈ data.relationships, ed.rtype = r.rtype ∧
          ed.weight = r.jaccard_weight.map round2 ∧
          (r.jaccard_weight = none → ed.weight = none) ∧
          (∀ q, r.jaccard_weight = some q → ed.weight = some (round2 q))) ∧
    (∀ r : Rel, r.jaccard_weight = none → relWeight r = 0) := by
  constructor
  · intro data ed h
    obtain ⟨r, hrmem, hty, hw, _⟩ :=
      edgeElements_mem _ _ _ _ _ ed (exportData_edge_mem data ed h)
    have hrel := (finalEdges_mem _ _ _ r hrmem).1
    refine ⟨r, hrel, hty, hw, ?_, ?_⟩
    · intro hn
      rw [hw, hn]
      rfl
    · intro q hq
      rw [hw, hq]
      rfl
  · intro r h
    rw [relWeight, h]
    rfl

theorem mem_tier1Ids_src (cid : String) (rels : List Rel) (r : Rel)
    (h : r ∈ rels) (hS : r.rtype = "SIMILAR") (hsrc : r.source = cid) :
    r.target ∈ tier1Ids cid rels := by
  rw [tier1Ids]
  apply List.mem_filterMap.mpr
  exact ⟨r, List.mem_filter.mpr ⟨h, by simp [hS]⟩, by rw [if_pos hsrc]⟩

theorem mem_tier1Ids_tgt (cid : String) (rels : List Rel) (r : Rel)
    (h : r ∈ rels) (hS : r.rtype = "SIMILAR") (hsrc : r.source ≠ cid)
    (htgt : r.target = cid) : r.source ∈ tier1Ids cid rels := by
  rw [tier1Ids]
  apply List.mem_filterMap.mpr
  exact ⟨r, List.mem_filter.mpr ⟨h, by simp [hS]⟩,
    by rw [if_neg hsrc, if_pos htgt]⟩

theorem mem_tier1Ids_elim (cid : String) (rels : List Rel) (x : String)
    (h : x ∈ tier1Ids cid rels) :
    ∃ r ∈ rels, r.rtype = "SIMILAR" ∧
      ((r.source = cid ∧ x = r.target)
        ∨ (r.source ≠ cid ∧ r.target = cid ∧ x = r.source)) := by
  rw [tier1Ids] at h
  obtain ⟨r, hr, hx⟩ := List.mem_filterMap.mp h
  obtain ⟨hmem, hS⟩ := List.mem_filter.mp hr
  refine ⟨r, hmem, by simpa using hS, ?_⟩
  by_cases hsrc : r.source = cid
  · rw [if_pos hsrc] at hx
    exact Or.inl ⟨hsrc, (Option.some.inj hx).symm⟩
  · rw [if_neg hsrc] at hx
    by_cases htgt : r.target = cid
    · rw [if_pos htgt] at hx
      exact Or.inr ⟨hsrc, htgt, (Option.some.inj hx).symm⟩
    · rw [if_neg htgt] at hx
      exact absurd hx (by simp)

theorem get_protein_neighborhood_some (g : GraphStore) (pid : String)
    (depth : Nat) (p : ProteinNode) (hp : lookupProtein g pid = some p) :
    get_protein_neighborhood g pid depth
      = some ⟨p, retrievedNeighbors g pid depth, retrievedRels g pid depth,
          (centerDomainIds g pid).filterMap (lookupDomain g), depth⟩ := by
  rw [get_protein_neighborhood, hp]

theorem retrievedRels_shape (g : GraphStore) (pid : String) (depth : Nat)
    (r : Rel) (h : r ∈ retrievedRels g pid depth) :
    (∃ r0 ∈ g.sims, r = projSim r0 ∧
        (simIncident pid r0 = true
          ∨ r0.src ∈ tier1Store g pid ∨ r0.tgt ∈ tier1Store g pid)) ∨
    (r.rtype = "HAS_DOMAIN" ∧ r.source = pid ∧ r.jaccard_weight = none) := by
  rw [retrievedRels] at h
  cases List.mem_append.mp h with
  | inl h1 =>
    left
    by_cases hdep : depth = 1
    · rw [if_pos hdep] at h1
      obtain ⟨r0, hr0, heq⟩ := List.mem_map.mp (List.mem_dedup.mp h1)
      obtain ⟨hmem, hinc⟩ := List.mem_filter.mp hr0
      exact ⟨r0, hmem, heq.symm, Or.inl hinc⟩
    · rw [if_neg hdep] at h1
      obtain ⟨r0, hr0, heq⟩ := List.mem_map.mp (List.mem_dedup.mp h1)
      obtain ⟨hmem, hcond⟩ := List.mem_filter.mp hr0
      refine ⟨r0, hmem, heq.symm, ?_⟩
      rcases Bool.or_eq_true_iff.mp hcond with hi | ha
      · exact Or.inl hi
      · obtain ⟨x, hx, hxi⟩ := List.any_eq_true.mp ha
        rcases Bool.or_eq_true_iff.mp hxi with hs | ht
        · right; left
          rw [← show r0.src = x from by simpa using hs] at hx
          exact hx
        · right; right
          rw [← show r0.tgt = x from by simpa using ht] at hx
          exact hx
  | inr h2 =>
    right
    rw [centerDomainRels] at h2
    obtain ⟨did, _, heq⟩ := List.mem_map.mp h2
    rw [← heq]
    exact ⟨rfl, rfl, rfl⟩

theorem tier1Ids_retrieved (g : GraphStore) (pid : String) (depth : Nat)
    (x : String) :
    x ∈ tier1Ids pid (retrievedRels g pid depth) ↔ x ∈ tier1Store g pid := by
  constructor
  · intro h
    obtain ⟨r, hmem, hS, hcase⟩ := mem_tier1Ids_elim pid _ x h
    have hshape := retrievedRels_shape g pid depth r hmem
    rcases hshape with ⟨r0, hr0, heq, _⟩ | ⟨hdom, _, _⟩
    · have hsrc : r.source = r0.src := by rw [heq]; rfl
      have htgt : r.target = r0.tgt := by rw [heq]; rfl
      rcases hcase with ⟨hc, hx⟩ | ⟨hnc, hc, hx⟩
      · have hinc : simIncident pid r0 = true := by
          rw [simIncident]
          simp [← hsrc, hc]
        refine List.mem_map.mpr ⟨r0, List.mem_filter.mpr ⟨hr0, hinc⟩, ?_⟩
        rw [otherEnd, if_pos (hsrc ▸ hc), ← htgt, hx]
      · have hinc : simIncident pid r0 = true := by
          rw [simIncident]
          simp [← htgt, hc]
        refine List.mem_map.mpr ⟨r0, List.mem_filter.mpr ⟨hr0, hinc⟩, ?_⟩
        have hs0 : r0.src ≠ pid := by rw [← hsrc]; exact hnc
        rw [otherEnd, if_neg hs0, ← hsrc, hx]
    · rw [hdom] at hS
      exact absurd hS (by decide)
  · intro h
    obtain ⟨r0, hr0, hoe⟩ := List.mem_map.mp h
    obtain ⟨hmem, hinc⟩ := List.mem_filter.mp hr0
    have hproj : projSim r0 ∈ retrievedRels g pid depth := by
      rw [retrievedRels]
      apply List.mem_append.mpr
      left
      by_cases hdep : depth = 1
      · rw [if_pos hdep]
        exact List.mem_dedup.mpr
          (List.mem_map.mpr ⟨r0, List.mem_filter.mpr ⟨hmem, hinc⟩, rfl⟩)
      · rw [if_neg hdep]
        refine List.mem_dedup.mpr (List.mem_map.mpr ⟨r0, ?_, rfl⟩)
        apply List.mem_filter.mpr
        exact ⟨hmem, by simp [hinc]⟩
    by_cases hs : r0.src = pid
    · have := mem_tier1Ids_src pid _ (projSim r0) hproj rfl hs
      rw [otherEnd, if_pos hs] at hoe
      rw [← hoe]
      exact this
    · have htgt : r0.tgt = pid := by
        rcases Bool.or_eq_true_iff.mp hinc with h1 | h1
        · exact absurd (by simpa using h1) hs
        · simpa using h1
      have := mem_tier1Ids_tgt pid _ (projSim r0) hproj rfl hs htgt
      rw [otherEnd, if_neg hs] at hoe
      rw [← hoe]
      exact this

theorem pid_not_tier1Store (g : GraphStore) (pid : String)
    (Hnl : ∀ r ∈ g.sims, r.src ≠ r.tgt) : pid ∉ tier1Store g pid := by
  intro h
  obtain ⟨r0, hr0, hoe⟩ := List.mem_map.mp h
  obtain ⟨hmem, _⟩ := List.mem_filter.mp hr0
  rw [otherEnd] at hoe
  by_cases hs : r0.src = pid
  · rw [if_pos hs] at hoe
    exact Hnl r0 hmem (hs.trans hoe.symm)
  · rw [if_neg hs] at hoe
    exact hs hoe

theorem isCand_elim (cid : String) (t1 : List String) (k : String) (r : Rel)
    (h : isCand cid t1 k r = true) :
    r.rtype = "SIMILAR" ∧ r.source ≠ cid ∧ r.target ≠ cid ∧
    ¬(r.source ∈ t1 ∧ r.target ∈ t1) ∧ d2NodeOf cid t1 r = some k := by
  rw [isCand] at h
  simp only [Bool.and_eq_true, Bool.not_eq_true', Bool.or_eq_false_iff,
    Bool.and_eq_false_iff, decide_eq_true_eq, decide_eq_false_iff_not] at h
  refine ⟨h.1.1.1, h.1.1.2.1, h.1.1.2.2, ?_, h.2⟩
  intro hand
  rcases h.1.2 with hx | hx
  · exact hx hand.1
  · exact hx hand.2

theorem orient_center_incident (cid : String) (t1 : List String) (r : Rel)
    (hinc : r.source = cid ∨ r.target = cid) (hne : r.source ≠ r.target) :
    (orient cid t1 r).1 = cid ∧
    ((orient cid t1 r).2 = r.source ∧ r.target = cid
      ∨ (orient cid t1 r).2 = r.target ∧ r.source = cid) ∧
    (orient cid t1 r).2 ≠ cid := by
  rw [orient]
  by_cases ht : r.target = cid
  · rw [if_pos ht]
    refine ⟨rfl, Or.inl ⟨rfl, ht⟩, ?_⟩
    intro hsc
    exact hne (hsc.trans ht.symm)
  · have hs : r.source = cid := hinc.resolve_right ht
    rw [if_neg ht, if_pos hs]
    exact ⟨rfl, Or.inr ⟨rfl, hs⟩, ht⟩

theorem orient_candidate (cid : String) (t1 : List String) (k : String)
    (r : Rel) (hc : isCand cid t1 k r = true)
    (hshape : r.source ∈ t1 ∨ r.target ∈ t1) :
    (orient cid t1 r).2 = k ∧ (orient cid t1 r).1 ∈ t1 ∧
    (orient cid t1 r).1 = (if r.source = k then r.target else r.source) ∧
    k ∉ t1 ∧ k ≠ cid := by
  obtain ⟨hS, hnsrc, hntgt, hnlat, hd2⟩ := isCand_elim cid t1 k r hc
  rw [d2NodeOf] at hd2
  by_cases c1 : r.source ∉ t1 ∧ r.source ≠ cid
  · rw [if_pos c1] at hd2
    have hk : k = r.source := (Option.some.inj hd2).symm
    have htgt1 : r.target ∈ t1 := hshape.resolve_left c1.1
    rw [orient, if_neg hntgt, if_neg hnsrc, if_neg c1.1, if_pos htgt1]
    refine ⟨hk.symm, htgt1, ?_, hk ▸ c1.1, hk ▸ c1.2⟩
    rw [if_pos hk.symm]
  · rw [if_neg c1] at hd2
    by_cases c2 : r.target ∉ t1 ∧ r.target ≠ cid
    · rw [if_pos c2] at hd2
      have hk : k = r.target := (Option.some.inj hd2).symm
      have hsrc1 : r.source ∈ t1 := by
        rcases not_and_or.mp c1 with hx | hx
        · simpa using hx
        · exact absurd (by simpa using hx) hnsrc
      rw [orient, if_neg hntgt, if_neg hnsrc, if_pos hsrc1]
      refine ⟨hk.symm, hsrc1, ?_, hk ▸ c2.1, hk ▸ c2.2⟩
      rw [if_neg]
      intro hsk
      have htin : r.target ∈ t1 := by
        rw [← hk, ← hsk]
        exact hsrc1
      exact c2.1 htin
    · rw [if_neg c2] at hd2
      exact absurd hd2 (by simp)

theorem finalEdges_cases (cid : String) (t1 : List String) (rels : List Rel)
    (r : Rel) (h : r ∈ finalEdges cid t1 rels) :
    (r ∈ rels ∧ (r.rtype = "HAS_DOMAIN"
        ∨ (r.rtype = "SIMILAR" ∧ (r.source = cid ∨ r.target = cid)))) ∨
    (r ∈ rels ∧ ∃ k, isCand cid t1 k r = true) := by
  rw [finalEdges] at h
  cases List.mem_append.mp h with
  | inl hf =>
    left
    rw [processRels_fst] at hf
    have hm := List.mem_filter.mp hf
    refine ⟨hm.1, ?_⟩
    have hb := hm.2
    simp only [Bool.or_eq_true, Bool.and_eq_true, decide_eq_true_eq] at hb
    rcases hb with hd | ⟨hs, hor⟩
    · exact Or.inl hd
    · exact Or.inr ⟨hs, hor⟩
  | inr hb =>
    right
    obtain ⟨e, he, heq⟩ := List.mem_map.mp hb
    have hmem := (processRels_snd_mem cid t1 rels [] e he).resolve_left (by simp)
    rw [← heq]
    exact ⟨hmem.1, e.1, hmem.2.2⟩

section
attribute [local semireducible] Rat.mul Rat.inv Rat.add Rat.sub Rat.ofScientific

/-- Claim C6: in every export, every SIMILAR edge of the payload either runs
    from the center to a tier-1 node or from a tier-1 node to a node that is
    neither tier-1 nor the center — so a lateral edge between two tier-1
    neighbors never appears; and on the concrete depth-1 store with neighbors
    Y (0.5) and Z (0.2) and a lateral Y-Z edge, the export has exactly the two
    tier-1 nodes Y and Z and exactly two SIMILAR edges, both originating at
    the center X. -/
theorem c6_lateral_filtering :
    (∀ (g : GraphStore) (pid : String) (depth : Nat) (p : ProteinNode)
        (ed : EdgeData),
      (∀ r ∈ g.sims, r.src ≠ r.tgt) →
      lookupProtein g pid = some p →
      Element.edge ed ∈ export_neighborhood_for_visualization g pid depth →
      ed.rtype = "SIMILAR" →
      ¬(ed.source ∈ tier1Ids pid (retrievedRels g pid depth)
          ∧ ed.target ∈ tier1Ids pid (retrievedRels g pid depth)) ∧
      ((ed.source = pid
          ∧ ed.target ∈ tier1Ids pid (retrievedRels g pid depth)
          ∧ ed.target ≠ pid)
        ∨ (ed.source ∈ tier1Ids pid (retrievedRels g pid depth)
          ∧ ed.target ∉ tier1Ids pid (retrievedRels g pid depth)
          ∧ ed.target ≠ pid))) ∧
    ((export_neighborhood_for_visualization storeC6 "X" 1).filterMap
        (fun el => match el with
          | .node nd => if nd.ntype = "neighbor_d1" then some nd.nid else none
          | .edge _ => none) = ["Y", "Z"] ∧
      (export_neighborhood_for_visualization storeC6 "X" 1).filterMap
        (fun el => match el with
          | .edge ed => if ed.rtype = "SIMILAR" then some ed.source else none
          | .node _ => none) = ["X", "X"]) := by
  constructor
  · intro g pid depth p ed Hnl hp hmem hS
    have hcid : p.uniprot_id = pid := lookupProtein_id g pid p hp
    rw [export_neighborhood_for_visualization,
      get_protein_neighborhood_some g pid depth p hp] at hmem
    have hed := exportData_edge_mem _ ed hmem
    dsimp only at hed
    rw [hcid] at hed
    have hpid : pid ∉ tier1Ids pid (retrievedRels g pid depth) := by
      intro hx
      exact pid_not_tier1Store g pid Hnl ((tier1Ids_retrieved g pid depth pid).mp hx)
    obtain ⟨r, hrfe, hty, _, hor⟩ :=
      edgeElements_mem pid (tier1Ids pid (retrievedRels g pid depth)) _ _ _ ed hed
    have hrS : r.rtype = "SIMILAR" := by
      rw [← hty]
      exact hS
    obtain ⟨hosrc, hotgt⟩ := hor hrS
    have hsplit := finalEdges_cases pid _ (retrievedRels g pid depth) r hrfe
    rcases hsplit with ⟨hmemr, hkind⟩ | ⟨hmemr, k, hcand⟩
    · rcases hkind with hdom | ⟨_, hinc⟩
      · exact absurd (hdom.symm.trans hrS) (by decide)
      · have hshape := retrievedRels_shape g pid depth r hmemr
        rcases hshape with ⟨r0, hr0, heq, _⟩ | ⟨hdom, _, _⟩
        · have hne : r.source ≠ r.target := by
            rw [heq]
            simpa [projSim] using Hnl r0 hr0
          obtain ⟨ho1, ho2, ho3⟩ :=
            orient_center_incident pid (tier1Ids pid (retrievedRels g pid depth))
              r hinc hne
          have htin : ed.target ∈ tier1Ids pid (retrievedRels g pid depth) := by
            rw [hotgt]
            rcases ho2 with ⟨ho2e, htgtc⟩ | ⟨ho2e, hsrcc⟩
            · rw [ho2e]
              refine mem_tier1Ids_tgt pid _ r hmemr hrS ?_ htgtc
              intro hc
              exact hne (hc.trans htgtc.symm)
            · rw [ho2e]
              exact mem_tier1Ids_src pid _ r hmemr hrS hsrcc
          constructor
          · rintro ⟨hsrcT, _⟩
            rw [hosrc, ho1] at hsrcT
            exact hpid hsrcT
          · left
            refine ⟨by rw [hosrc, ho1], htin, ?_⟩
            rw [hotgt]
            exact ho3
        · exact absurd (hdom.symm.trans hrS) (by decide)
    · obtain ⟨hS', hnsrc, hntgt, hnlat, hd2⟩ :=
        isCand_elim pid _ k r hcand
      have hshape := retrievedRels_shape g pid depth r hmemr
      rcases hshape with ⟨r0, hr0, heq, hloc⟩ | ⟨hdom, _, _⟩
      · have hsrc0 : r.source = r0.src := by simp [heq, projSim]
        have htgt0 : r.target = r0.tgt := by simp [heq, projSim]
        have hsh : r.source ∈ tier1Ids pid (retrievedRels g pid depth)
            ∨ r.target ∈ tier1Ids pid (retrievedRels g pid depth) := by
          rcases hloc with hi | hx | hx
          · exfalso
            rcases Bool.or_eq_true_iff.mp hi with h1 | h1
            · exact hnsrc (by rw [hsrc0]; simpa using h1)
            · exact hntgt (by rw [htgt0]; simpa using h1)
          · left
            rw [hsrc0]
            exact (tier1Ids_retrieved g pid depth r0.src).mpr hx
          · right
            rw [htgt0]
            exact (tier1Ids_retrieved g pid depth r0.tgt).mpr hx
        obtain ⟨ho2, ho1mem, _, hknot, hkne⟩ :=
          orient_candidate pid _ k r hcand hsh
        constructor
        · rintro ⟨_, htgtT⟩
          rw [hotgt, ho2] at htgtT
          exact hknot htgtT
        · right
          refine ⟨by rw [hosrc]; exact ho1mem, ?_, ?_⟩
          · rw [hotgt, ho2]
            exact hknot
          · rw [hotgt, ho2]
            exact hkne
      · exact absurd (hdom.symm.trans hS') (by decide)
  · constructor
    · decide
    · decide

end

section
attribute [local semireducible] Rat.mul Rat.inv Rat.add Rat.sub Rat.ofScientific

/-- Witness for C10 on a concrete neighborhood: the exported edge e_0 from X
    to Y carries weight round(0.5, 2) of the X-Y relationship. -/
theorem c10_weight_field_witness :
    ∃ r ∈ ([⟨"X", "Y", "SIMILAR", some (1 / 2)⟩,
            ⟨"X", "Z", "SIMILAR", some (1 / 5)⟩] : List Rel),
      ("SIMILAR" : String) = r.rtype ∧
      (some (1 / 2) : Option ℚ) = r.jaccard_weight.map round2 ∧
      (r.jaccard_weight = none → (some (1 / 2) : Option ℚ) = none) ∧
      (∀ q, r.jaccard_weight = some q →
        (some (1 / 2) : Option ℚ) = some (round2 q)) :=
  c10_weight_field.1
    ⟨⟨"X", none, none⟩, [⟨"Y", none, none⟩, ⟨"Z", none, none⟩],
      [⟨"X", "Y", "SIMILAR", some (1 / 2)⟩, ⟨"X", "Z", "SIMILAR", some (1 / 5)⟩],
      [], 1⟩
    ⟨"e_0", "X", "Y", "SIMILAR", some (1 / 2)⟩ (by decide)

/-- Witness for C6 on the concrete depth-1 store: the exported X-to-Y edge is
    a center-to-tier-1 edge and not lateral. -/
theorem c6_lateral_filtering_witness :
    ¬(("X" : String) ∈ tier1Ids "X" (retrievedRels storeC6 "X" 1)
        ∧ ("Y" : String) ∈ tier1Ids "X" (retrievedRels storeC6 "X" 1)) ∧
    ((("X" : String) = "X"
        ∧ ("Y" : String) ∈ tier1Ids "X" (retrievedRels storeC6 "X" 1)
        ∧ ("Y" : String) ≠ "X")
      ∨ (("X" : String) ∈ tier1Ids "X" (retrievedRels storeC6 "X" 1)
        ∧ ("Y" : String) ∉ tier1Ids "X" (retrievedRels storeC6 "X" 1)
        ∧ ("Y" : String) ≠ "X")) :=
  c6_lateral_filtering.1 storeC6 "X" 1 ⟨"X", none, none⟩
    ⟨"e_0", "X", "Y", "SIMILAR", some (1 / 2)⟩ (by decide) (by decide)
    (by decide) rfl

end

theorem bmLookup_cons_eq (e : String × ℚ × Rel) (m : List (String × ℚ × Rel))
    (k : String) (h : e.1 = k) : bmLookup (e :: m) k = some e.2 := by
  rw [bmLookup, List.find?_cons_of_pos _ (by simpa using h)]
  rfl

theorem bmLookup_cons_ne (e : String × ℚ × Rel) (m : List (String × ℚ × Rel))
    (k : String) (h : e.1 ≠ k) : bmLookup (e :: m) k = bmLookup m k := by
  rw [bmLookup, List.find?_cons_of_neg _ (by simpa using h), bmLookup]

theorem bestFold_nil (cur : Option (ℚ × Rel)) : bestFold cur [] = cur := by
  cases cur with
  | none => rfl
  | some p =>
    obtain ⟨w, r⟩ := p
    rfl

theorem firstMaxBy_cons (f : Rel → ℚ) (r : Rel) (l : List Rel) (m : Rel)
    (h : firstMaxBy f l = some m) :
    firstMaxBy f (r :: l) = if f r < f m then some m else some r := by
  rw [firstMaxBy, h]

theorem firstMaxBy_cons_none (f : Rel → ℚ) (r : Rel) (l : List Rel)
    (h : firstMaxBy f l = none) : firstMaxBy f (r :: l) = some r := by
  rw [firstMaxBy, h]

theorem bmLookup_updateBest_same :
    ∀ (m : List (String × ℚ × Rel)) (k : String) (w : ℚ) (r : Rel),
    bmLookup (updateBest m k w r) k
      = some (match bmLookup m k with
          | none => (w, r)
          | some (w', r') => if w' < w then (w, r) else (w', r')) := by
  intro m
  induction m with
  | nil =>
    intro k w r
    rw [updateBest]
    rw [bmLookup_cons_eq (k, w, r) [] k rfl]
    rfl
  | cons x rest ih =>
    intro k w r
    obtain ⟨k', w', r'⟩ := x
    rw [updateBest]
    by_cases hk : k = k'
    · subst hk
      rw [if_pos rfl]
      by_cases hw : w' < w
      · rw [if_pos hw, bmLookup_cons_eq (k, w, r) rest k rfl,
          bmLookup_cons_eq (k, w', r') rest k rfl]
        simp [hw]
      · rw [if_neg hw, bmLookup_cons_eq (k, w', r') rest k rfl]
        simp [hw]
    · rw [if_neg hk]
      have hne : (k', w', r').1 ≠ k := fun h => hk h.symm
      rw [bmLookup_cons_ne _ _ k hne, bmLookup_cons_ne _ _ k hne]
      exact ih k w r

theorem bmLookup_updateBest_other :
    ∀ (m : List (String × ℚ × Rel)) (k : String) (w : ℚ) (r : Rel)
      (k' : String), k' ≠ k →
    bmLookup (updateBest m k w r) k' = bmLookup m k' := by
  intro m
  induction m with
  | nil =>
    intro k w r k' h
    rw [updateBest, bmLookup_cons_ne (k, w, r) [] k' (fun hc => h hc.symm)]
  | cons x rest ih =>
    intro k w r k' h
    obtain ⟨k0, w0, r0⟩ := x
    rw [updateBest]
    by_cases hk : k = k0
    · subst hk
      by_cases hw : w0 < w
      · rw [if_pos rfl, if_pos hw,
          bmLookup_cons_ne (k, w, r) rest k' (fun hc => h hc.symm),
          bmLookup_cons_ne (k, w0, r0) rest k' (fun hc => h hc.symm)]
      · rw [if_pos rfl, if_neg hw]
    · rw [if_neg hk]
      by_cases hk0 : k0 = k'
      · rw [bmLookup_cons_eq (k0, w0, r0) _ k' hk0,
          bmLookup_cons_eq (k0, w0, r0) rest k' hk0]
      · rw [bmLookup_cons_ne (k0, w0, r0) _ k' hk0,
          bmLookup_cons_ne (k0, w0, r0) rest k' hk0]
        exact ih k w r k' h

theorem processRels_snd_lookup (cid : String) (t1 : List String) :
    ∀ (rels : List Rel) (bm : List (String × ℚ × Rel)) (k : String),
    bmLookup (processRels cid t1 bm rels).2 k
      = bestFold (bmLookup bm k) (rels.filter (isCand cid t1 k)) := by
  intro rels
  induction rels with
  | nil =>
    intro bm k
    rw [show (processRels cid t1 bm []).2 = bm from rfl, List.filter_nil,
      bestFold_nil]
  | cons r rest ih =>
    intro bm k
    rw [List.filter_cons]
    by_cases h1 : r.rtype = "HAS_DOMAIN"
    · have hc : isCand cid t1 k r = false := by simp [isCand, h1]
      rw [hc]
      simp only [Bool.false_eq_true, if_false]
      rw [processRels, if_pos h1]
      exact ih bm k
    · by_cases h2 : r.rtype = "SIMILAR"
      · by_cases h3 : r.source = cid ∨ r.target = cid
        · have hc : isCand cid t1 k r = false := by
            rcases h3 with h | h <;> simp [isCand, h]
          rw [hc]
          simp only [Bool.false_eq_true, if_false]
          rw [processRels, if_neg h1, if_pos h2, if_pos h3]
          exact ih bm k
        · by_cases h4 : r.source ∈ t1 ∧ r.target ∈ t1
          · have hc : isCand cid t1 k r = false := by
              simp [isCand, h4.1, h4.2]
            rw [hc]
            simp only [Bool.false_eq_true, if_false]
            rw [processRels, if_neg h1, if_pos h2, if_neg h3, if_pos h4]
            exact ih bm k
          · rw [processRels, if_neg h1, if_pos h2, if_neg h3, if_neg h4]
            cases hd2 : d2NodeOf cid t1 r with
            | none =>
              have hc : isCand cid t1 k r = false := by simp [isCand, hd2]
              rw [hc]
              simp only [Bool.false_eq_true, if_false]
              exact ih bm k
            | some k0 =>
              by_cases hk : k0 = k
              · subst hk
                have hc : isCand cid t1 k0 r = true := by
                  rw [not_or] at h3
                  simp [isCand, h2, hd2, h3.1, h3.2]
                  exact not_and_or.mp h4
                rw [hc, if_pos rfl]
                rw [ih (updateBest bm k0 (relWeight r) r) k0]
                rw [bmLookup_updateBest_same bm k0 (relWeight r) r]
                cases hbm : bmLookup bm k0 with
                | none => rfl
                | some p =>
                  obtain ⟨w', r'⟩ := p
                  rfl
              · have hc : isCand cid t1 k r = false := by
                  rw [isCand, hd2]
                  simp [hk]
                rw [hc]
                simp only [Bool.false_eq_true, if_false]
                rw [ih (updateBest bm k0 (relWeight r) r) k]
                rw [bmLookup_updateBest_other bm k0 (relWeight r) r k
                  (fun hh => hk hh.symm)]
      · have hc : isCand cid t1 k r = false := by simp [isCand, h2]
        rw [hc]
        simp only [Bool.false_eq_true, if_false]
        rw [processRels, if_neg h1, if_neg h2]
        exact ih bm k

theorem firstMaxBy_spec (f : Rel → ℚ) :
    ∀ (l : List Rel), l ≠ [] →
    ∃ m, firstMaxBy f l = some m ∧ m ∈ l ∧ ∀ y ∈ l, f y ≤ f m := by
  intro l
  induction l with
  | nil => intro h; exact absurd rfl h
  | cons r rest ih =>
    intro _
    cases rest with
    | nil =>
      refine ⟨r, rfl, by simp, ?_⟩
      intro y hy
      rw [List.mem_singleton.mp hy]
    | cons r' rest' =>
      obtain ⟨m, hm, hmem, hmax⟩ := ih (by simp)
      by_cases h : f r < f m
      · refine ⟨m, ?_, List.mem_cons_of_mem r hmem, ?_⟩
        · rw [firstMaxBy_cons f r _ m hm, if_pos h]
        · intro y hy
          rcases List.mem_cons.mp hy with rfl | hy
          · exact le_of_lt h
          · exact hmax y hy
      · refine ⟨r, ?_, List.mem_cons_self r _, ?_⟩
        · rw [firstMaxBy_cons f r _ m hm, if_neg h]
        · intro y hy
          rcases List.mem_cons.mp hy with rfl | hy
          · exact le_refl _
          · exact le_trans (hmax y hy) (not_lt.mp h)

theorem firstMaxBy_eq_none (f : Rel → ℚ) (l : List Rel)
    (h : firstMaxBy f l = none) : l = [] := by
  cases l with
  | nil => rfl
  | cons r rest =>
    exfalso
    obtain ⟨m, hm, _, _⟩ := firstMaxBy_spec f (r :: rest) (by simp)
    rw [hm] at h
    exact Option.noConfusion h

theorem bestFold_some_eq :
    ∀ (l : List Rel) (r0 : Rel),
    bestFold (some (relWeight r0, r0)) l
      = (firstMaxBy relWeight (r0 :: l)).map (fun r => (relWeight r, r)) := by
  intro l
  induction l with
  | nil => intro r0; rfl
  | cons r rest ih =>
    intro r0
    show bestFold (some (if relWeight r0 < relWeight r
        then (relWeight r, r) else (relWeight r0, r0))) rest = _
    obtain ⟨m, hm, _, hmax⟩ := firstMaxBy_spec relWeight (r :: rest) (by simp)
    by_cases h : relWeight r0 < relWeight r
    · rw [if_pos h, ih r]
      have hout : firstMaxBy relWeight (r0 :: r :: rest)
          = firstMaxBy relWeight (r :: rest) := by
        rw [firstMaxBy_cons relWeight r0 _ m hm,
          if_pos (lt_of_lt_of_le h (hmax r (List.mem_cons_self r rest))), hm]
      rw [hout]
    · rw [if_neg h, ih r0]
      have hout : firstMaxBy relWeight (r0 :: r :: rest)
          = firstMaxBy relWeight (r0 :: rest) := by
        cases hrest : firstMaxBy relWeight rest with
        | none =>
          have hnil : rest = [] := firstMaxBy_eq_none relWeight rest hrest
          subst hnil
          rw [firstMaxBy_cons relWeight r0 [r] r rfl, if_neg h]
          rfl
        | some m' =>
          by_cases h2 : relWeight r < relWeight m'
          · have hrr : firstMaxBy relWeight (r :: rest) = some m' := by
              rw [firstMaxBy_cons relWeight r rest m' hrest]
              exact if_pos h2
            rw [firstMaxBy_cons relWeight r0 _ m' hrr,
              firstMaxBy_cons relWeight r0 rest m' hrest]
          · have hrr : firstMaxBy relWeight (r :: rest) = some r := by
              rw [firstMaxBy_cons relWeight r rest m' hrest]
              exact if_neg h2
            have hnr0 : ¬ relWeight r0 < relWeight m' := by
              intro hcon
              exact h (lt_of_lt_of_le hcon (not_lt.mp h2))
            rw [firstMaxBy_cons relWeight r0 _ r hrr, if_neg h,
              firstMaxBy_cons relWeight r0 rest m' hrest, if_neg hnr0]
      rw [hout]

theorem bestFold_none_eq (l : List Rel) :
    bestFold none l
      = (firstMaxBy relWeight l).map (fun r => (relWeight r, r)) := by
  cases l with
  | nil => rfl
  | cons r rest => exact bestFold_some_eq rest r

/-- Claim C5 (amended): when several candidate edges into the same tier-2 node
    tie on weight, the edge retained in best_d2_links is the first-encountered
    candidate attaining the maximal weight, in the order the relationships are
    processed — a later candidate replaces the current one only when strictly
    heavier.  The retained edge therefore depends on the order in which the
    store returns the relationships, not on the tier-1 ids. -/
theorem c5_tie_first_encountered (cid : String) (t1 : List String)
    (rels : List Rel) (k : String) :
    bmLookup (processRels cid t1 [] rels).2 k
      = (firstMaxBy relWeight (rels.filter (isCand cid t1 k))).map
          (fun r => (relWeight r, r)) := by
  rw [processRels_snd_lookup cid t1 rels [] k]
  exact bestFold_none_eq _

section
attribute [local semireducible] Rat.mul Rat.inv Rat.add Rat.sub Rat.ofScientific

/-- Claim C5 as stated is false on the code: in the concrete depth-2 export
    where tier-2 node W is reachable from tier-1 nodes A and B with equal
    weight 0.4 and the store returns the B edge first, the single retained
    inbound edge of W comes from B, although A is the lexicographically
    smaller tier-1 id and the A edge is an equal-weight candidate. -/
theorem c5_counterexample :
    simEdgesInto "W" (export_neighborhood_for_visualization storeC5 "X" 2)
      = [⟨"e_2", "B", "W", "SIMILAR", some (2 / 5)⟩] ∧
    (⟨"A", "W", "SIMILAR", some (2 / 5)⟩ : Rel)
      ∈ (retrievedRels storeC5 "X" 2).filter
          (isCand "X" (tier1Ids "X" (retrievedRels storeC5 "X" 2)) "W") ∧
    strLt "A" "B" = true := by
  decide

end

theorem append_sep_inj :
    ∀ (l1 m1 l2 m2 : List Char), '-' ∉ l1 → '-' ∉ m1 →
    l1 ++ '-' :: l2 = m1 ++ '-' :: m2 → l1 = m1 ∧ l2 = m2 := by
  intro l1
  induction l1 with
  | nil =>
    intro m1 l2 m2 _ h2 h
    cases m1 with
    | nil =>
      simp only [List.nil_append] at h
      exact ⟨rfl, (List.cons.inj h).2⟩
    | cons c m1' =>
      exfalso
      simp only [List.nil_append, List.cons_append] at h
      have hc : c = '-' := (List.cons.inj h).1.symm
      exact h2 (hc ▸ List.mem_cons_self c m1')
  | cons c l1' ih =>
    intro m1 l2 m2 h1 h2 h
    cases m1 with
    | nil =>
      exfalso
      simp only [List.nil_append, List.cons_append] at h
      have hc : c = '-' := (List.cons.inj h).1
      exact h1 (hc ▸ List.mem_cons_self c l1')
    | cons d m1' =>
      simp only [List.cons_append] at h
      obtain ⟨hcd, htail⟩ := List.cons.inj h
      have h1' : '-' ∉ l1' := fun hx => h1 (List.mem_cons_of_mem c hx)
      have h2' : '-' ∉ m1' := fun hx => h2 (List.mem_cons_of_mem d hx)
      obtain ⟨ha, hb⟩ := ih m1' l2 m2 h1' h2' htail
      exact ⟨by rw [hcd, ha], hb⟩

theorem sep_concat_inj (a b c d : String)
    (ha : '-' ∉ a.data) (hb : '-' ∉ b.data)
    (hc : '-' ∉ c.data) (hd : '-' ∉ d.data)
    (h : a ++ "-" ++ b = c ++ "-" ++ d) : a = c ∧ b = d := by
  have hdata : a.data ++ '-' :: b.data = c.data ++ '-' :: d.data := by
    have h' := congrArg String.data h
    simpa [String.data_append] using h'
  obtain ⟨h1, h2⟩ := append_sep_inj a.data c.data b.data d.data ha hc hdata
  constructor
  · cases a
    cases c
    exact congrArg String.mk h1
  · cases b
    cases d
    exact congrArg String.mk h2

theorem pairKey_eq_endpoints (a b c d : String)
    (ha : '-' ∉ a.data) (hb : '-' ∉ b.data)
    (hc : '-' ∉ c.data) (hd : '-' ∉ d.data)
    (h : pairKey a b = pairKey c d) :
    (a = c ∧ b = d) ∨ (a = d ∧ b = c) := by
  rw [pairKey, pairKey] at h
  by_cases h1 : strLt b a = true
  · by_cases h2 : strLt d c = true
    · rw [if_pos h1, if_pos h2] at h
      obtain ⟨x, y⟩ := sep_concat_inj b a d c hb ha hd hc h
      exact Or.inl ⟨y, x⟩
    · rw [if_pos h1, if_neg h2] at h
      obtain ⟨x, y⟩ := sep_concat_inj b a c d hb ha hc hd h
      exact Or.inr ⟨y, x⟩
  · by_cases h2 : strLt d c = true
    · rw [if_neg h1, if_pos h2] at h
      obtain ⟨x, y⟩ := sep_concat_inj a b d c ha hb hd hc h
      exact Or.inr ⟨x, y⟩
    · rw [if_neg h1, if_neg h2] at h
      obtain ⟨x, y⟩ := sep_concat_inj a b c d ha hb hc hd h
      exact Or.inl ⟨x, y⟩

theorem d2NodeOf_endpoint (cid : String) (t1 : List String) (r : Rel)
    (k : String) (h : d2NodeOf cid t1 r = some k) :
    k = r.source ∨ k = r.target := by
  rw [d2NodeOf] at h
  by_cases c1 : r.source ∉ t1 ∧ r.source ≠ cid
  · rw [if_pos c1] at h
    exact Or.inl (Option.some.inj h).symm
  · rw [if_neg c1] at h
    by_cases c2 : r.target ∉ t1 ∧ r.target ≠ cid
    · rw [if_pos c2] at h
      exact Or.inr (Option.some.inj h).symm
    · rw [if_neg c2] at h
      exact absurd h (by simp)

theorem updateBest_keys :
    ∀ (m : List (String × ℚ × Rel)) (k : String) (w : ℚ) (r : Rel),
    (updateBest m k w r).map (fun e => e.1)
      = if k ∈ m.map (fun e => e.1) then m.map (fun e => e.1)
        else m.map (fun e => e.1) ++ [k] := by
  intro m
  induction m with
  | nil => intro k w r; simp [updateBest]
  | cons x rest ih =>
    intro k w r
    obtain ⟨k', w', r'⟩ := x
    rw [updateBest]
    by_cases hk : k = k'
    · subst hk
      have hmem : k ∈ ((k, w', r') :: rest).map (fun e => e.1) := by simp
      rw [if_pos hmem]
      by_cases hw : w' < w
      · rw [if_pos rfl, if_pos hw]
        simp
      · rw [if_pos rfl, if_neg hw]
    · rw [if_neg hk, List.map_cons, List.map_cons, ih k w r]
      by_cases hmem : k ∈ rest.map (fun e => e.1)
      · rw [if_pos hmem, if_pos (by simp [hmem])]
      · rw [if_neg hmem, if_neg (by simp [hmem, Ne.symm, hk])]
        rfl

theorem updateBest_keys_nodup (m : List (String × ℚ × Rel)) (k : String)
    (w : ℚ) (r : Rel) (h : (m.map (fun e => e.1)).Nodup) :
    ((updateBest m k w r).map (fun e => e.1)).Nodup := by
  rw [updateBest_keys]
  by_cases hmem : k ∈ m.map (fun e => e.1)
  · rw [if_pos hmem]
    exact h
  · rw [if_neg hmem]
    refine List.Nodup.append h (List.nodup_singleton k) ?_
    intro a ha hb
    rw [List.mem_singleton.mp hb] at ha
    exact hmem ha

theorem processRels_snd_keys_nodup (cid : String) (t1 : List String) :
    ∀ (rels : List Rel) (bm : List (String × ℚ × Rel)),
    (bm.map (fun e => e.1)).Nodup →
    (((processRels cid t1 bm rels).2).map (fun e => e.1)).Nodup := by
  intro rels
  induction rels with
  | nil => intro bm h; exact h
  | cons r rest ih =>
    intro bm h
    by_cases h1 : r.rtype = "HAS_DOMAIN"
    · rw [processRels, if_pos h1]
      exact ih bm h
    · by_cases h2 : r.rtype = "SIMILAR"
      · by_cases h3 : r.source = cid ∨ r.target = cid
        · rw [processRels, if_neg h1, if_pos h2, if_pos h3]
          exact ih bm h
        · by_cases h4 : r.source ∈ t1 ∧ r.target ∈ t1
          · rw [processRels, if_neg h1, if_pos h2, if_neg h3, if_pos h4]
            exact ih bm h
          · rw [processRels, if_neg h1, if_pos h2, if_neg h3, if_neg h4]
            cases hd2 : d2NodeOf cid t1 r with
            | some k => exact ih _ (updateBest_keys_nodup bm k (relWeight r) r h)
            | none => exact ih bm h
      · rw [processRels, if_neg h1, if_neg h2]
        exact ih bm h

theorem bmLookup_split (bm : List (String × ℚ × Rel)) (k : String) (w : ℚ)
    (r : Rel) (h : bmLookup bm k = some (w, r)) :
    ∃ s t, bm = s ++ (k, w, r) :: t := by
  rw [bmLookup] at h
  cases hf : bm.find? (fun e => decide (e.1 = k)) with
  | none =>
    rw [hf] at h
    exact absurd h (by simp)
  | some e =>
    rw [hf] at h
    have he2 : e.2 = (w, r) := by simpa using h
    have he1 : e.1 = k := by simpa using List.find?_some hf
    obtain ⟨s, t, hst⟩ := List.append_of_mem (List.mem_of_find?_eq_some hf)
    refine ⟨s, t, ?_⟩
    rw [hst, show e = (k, w, r) from Prod.ext he1 he2]

theorem keys_middle_not_mem {α : Type} (s t : List (String × α)) (k : String)
    (e : String × α) (hk : e.1 = k)
    (h : ((s ++ e :: t).map (fun x => x.1)).Nodup) :
    k ∉ s.map (fun x => x.1) ∧ k ∉ t.map (fun x => x.1) := by
  rw [List.map_append, List.map_cons, hk] at h
  obtain ⟨hs, hct, hdisj⟩ := List.nodup_append.mp h
  constructor
  · intro hks
    exact (hdisj hks) (List.mem_cons_self k _)
  · intro hkt
    exact (List.nodup_cons.mp hct).1 hkt

theorem simEdgesInto_cons_node (w : String) (nd : NodeData)
    (els : List Element) :
    simEdgesInto w (.node nd :: els) = simEdgesInto w els := by
  rw [simEdgesInto, simEdgesInto, List.filterMap_cons]

theorem simEdgesInto_cons_edge_pos (w : String) (ed : EdgeData)
    (els : List Element) (h : ed.rtype = "SIMILAR" ∧ ed.target = w) :
    simEdgesInto w (.edge ed :: els) = ed :: simEdgesInto w els := by
  rw [simEdgesInto, simEdgesInto, List.filterMap_cons]
  simp only [if_pos h]

theorem simEdgesInto_cons_edge_neg (w : String) (ed : EdgeData)
    (els : List Element) (h : ¬(ed.rtype = "SIMILAR" ∧ ed.target = w)) :
    simEdgesInto w (.edge ed :: els) = simEdgesInto w els := by
  rw [simEdgesInto, simEdgesInto, List.filterMap_cons]
  simp only [if_neg h]

theorem simEdgesInto_append (w : String) (a b : List Element) :
    simEdgesInto w (a ++ b) = simEdgesInto w a ++ simEdgesInto w b := by
  rw [simEdgesInto, simEdgesInto, simEdgesInto, List.filterMap_append]

theorem simEdgesInto_neighborElements (w : String) (t1 : List String) :
    ∀ (ns : List ProteinNode) (ex : List String),
    simEdgesInto w (neighborElements t1 ex ns) = [] := by
  intro ns
  induction ns with
  | nil => intro ex; rfl
  | cons n rest ih =>
    intro ex
    rw [neighborElements]
    by_cases hmem : n.uniprot_id ∈ ex
    · rw [if_pos hmem]
      exact ih ex
    · rw [if_neg hmem, simEdgesInto_cons_node]
      exact ih _

theorem simEdgesInto_domainElements (w : String) (doms : List DomainNode) :
    simEdgesInto w (domainElements doms) = [] := by
  induction doms with
  | nil => rfl
  | cons d rest ih =>
    rw [domainElements, List.map_cons, simEdgesInto_cons_node]
    rw [domainElements] at ih
    exact ih

theorem simEdgesInto_exportData (w : String) (data : Neighborhood) :
    simEdgesInto w (exportData data)
      = simEdgesInto w (edgeElements data.center_protein.uniprot_id
          (tier1Ids data.center_protein.uniprot_id data.relationships) [] 0
          (finalEdges data.center_protein.uniprot_id
            (tier1Ids data.center_protein.uniprot_id data.relationships)
            data.relationships)) := by
  rw [exportData, show centerElement data.center_protein
      = Element.node ⟨data.center_protein.uniprot_id,
          data.center_protein.uniprot_id,
          fullNameOf data.center_protein.protein_names, "center",
          some (data.center_protein.nlength.getD 0)⟩ from rfl,
    simEdgesInto_cons_node, simEdgesInto_append, simEdgesInto_append,
    simEdgesInto_neighborElements, simEdgesInto_domainElements]
  rfl

theorem simEdgesInto_edgeElements_none (w cid : String) (t1 : List String) :
    ∀ (fes : List Rel) (added : List String) (i : Nat),
    (∀ r ∈ fes, r.rtype = "SIMILAR" → (orient cid t1 r).2 ≠ w) →
    simEdgesInto w (edgeElements cid t1 added i fes) = [] := by
  intro fes
  induction fes with
  | nil => intro added i _; rfl
  | cons r rest ih =>
    intro added i hno
    have hrest : ∀ x ∈ rest, x.rtype = "SIMILAR" → (orient cid t1 x).2 ≠ w :=
      fun x hx => hno x (List.mem_cons_of_mem r hx)
    by_cases h1 : r.rtype = "HAS_DOMAIN"
    · rw [edgeElements, if_pos h1, mkEdgeElement,
        simEdgesInto_cons_edge_neg _ _ _
          (fun hc => absurd (h1.symm.trans hc.1) (by decide))]
      exact ih added (i + 1) hrest
    · by_cases h2 : r.rtype = "SIMILAR"
      · by_cases h3 : pairKey r.source r.target ∈ added
        · rw [edgeElements, if_neg h1, if_pos h2, if_pos h3]
          exact ih added (i + 1) hrest
        · rw [edgeElements, if_neg h1, if_pos h2, if_neg h3, mkEdgeElement,
            simEdgesInto_cons_edge_neg _ _ _
              (fun hc => hno r (List.mem_cons_self r rest) h2 hc.2)]
          exact ih _ (i + 1) hrest
      · rw [edgeElements, if_neg h1, if_neg h2, mkEdgeElement,
          simEdgesInto_cons_edge_neg _ _ _ (fun hc => h2 hc.1)]
        exact ih added (i + 1) hrest

theorem simEdgesInto_edgeElements_single (w cid : String) (t1 : List String) :
    ∀ (l1 : List Rel) (rw0 : Rel) (l2 : List Rel) (added : List String)
      (i : Nat),
    (∀ r ∈ l1, r.rtype = "SIMILAR" → (orient cid t1 r).2 ≠ w) →
    (∀ r ∈ l2, r.rtype = "SIMILAR" → (orient cid t1 r).2 ≠ w) →
    rw0.rtype = "SIMILAR" →
    (orient cid t1 rw0).2 = w →
    pairKey rw0.source rw0.target ∉ added →
    (∀ r ∈ l1, r.rtype = "SIMILAR" →
      pairKey r.source r.target ≠ pairKey rw0.source rw0.target) →
    ∃ j : Nat, simEdgesInto w (edgeElements cid t1 added i (l1 ++ rw0 :: l2))
      = [⟨"e_" ++ toString j, (orient cid t1 rw0).1, (orient cid t1 rw0).2,
          rw0.rtype, rw0.jaccard_weight.map round2⟩] := by
  intro l1
  induction l1 with
  | nil =>
    intro rw0 l2 added i _ hl2 hS ho2 hkey _
    refine ⟨i, ?_⟩
    rw [List.nil_append, edgeElements,
      if_neg (show ¬ rw0.rtype = "HAS_DOMAIN" by simp [hS]), if_pos hS,
      if_neg hkey, mkEdgeElement,
      simEdgesInto_cons_edge_pos _ _ _ ⟨hS, ho2⟩,
      simEdgesInto_edgeElements_none w cid t1 l2 _ _ hl2]
  | cons r l1' ih =>
    intro rw0 l2 added i hl1 hl2 hS ho2 hkey hkeys
    have hl1' : ∀ x ∈ l1', x.rtype = "SIMILAR" → (orient cid t1 x).2 ≠ w :=
      fun x hx => hl1 x (List.mem_cons_of_mem r hx)
    have hkeys' : ∀ x ∈ l1', x.rtype = "SIMILAR" →
        pairKey x.source x.target ≠ pairKey rw0.source rw0.target :=
      fun x hx => hkeys x (List.mem_cons_of_mem r hx)
    rw [List.cons_append]
    by_cases h1 : r.rtype = "HAS_DOMAIN"
    · rw [edgeElements, if_pos h1, mkEdgeElement,
        simEdgesInto_cons_edge_neg _ _ _
          (fun hc => absurd (h1.symm.trans hc.1) (by decide))]
      exact ih rw0 l2 added (i + 1) hl1' hl2 hS ho2 hkey hkeys'
    · by_cases h2 : r.rtype = "SIMILAR"
      · by_cases h3 : pairKey r.source r.target ∈ added
        · rw [edgeElements, if_neg h1, if_pos h2, if_pos h3]
          exact ih rw0 l2 added (i + 1) hl1' hl2 hS ho2 hkey hkeys'
        · rw [edgeElements, if_neg h1, if_pos h2, if_neg h3, mkEdgeElement,
            simEdgesInto_cons_edge_neg _ _ _
              (fun hc => hl1 r (List.mem_cons_self r l1') h2 hc.2)]
          refine ih rw0 l2 (pairKey r.source r.target :: added) (i + 1)
            hl1' hl2 hS ho2 ?_ hkeys'
          intro hmem
          rcases List.mem_cons.mp hmem with heq | hmem'
          · exact hkeys r (List.mem_cons_self r l1') h2 heq.symm
          · exact hkey hmem'
      · rw [edgeElements, if_neg h1, if_neg h2, mkEdgeElement,
          simEdgesInto_cons_edge_neg _ _ _ (fun hc => h2 hc.1)]
        exact ih rw0 l2 added (i + 1) hl1' hl2 hS ho2 hkey hkeys'

theorem sim_rel_src_tgt_ne (g : GraphStore) (pid : String) (depth : Nat)
    (r : Rel) (Hnl : ∀ r0 ∈ g.sims, r0.src ≠ r0.tgt)
    (hmem : r ∈ retrievedRels g pid depth) (hS : r.rtype = "SIMILAR") :
    r.source ≠ r.target := by
  rcases retrievedRels_shape g pid depth r hmem with ⟨r0, hr0, heq, _⟩ | ⟨hdom, _, _⟩
  · rw [heq]
    simpa [projSim] using Hnl r0 hr0
  · exact absurd (hdom.symm.trans hS) (by decide)

theorem sim_rel_hyphen_free (g : GraphStore) (pid : String) (depth : Nat)
    (r : Rel) (Hhy : ∀ r0 ∈ g.sims, '-' ∉ r0.src.data ∧ '-' ∉ r0.tgt.data)
    (hmem : r ∈ retrievedRels g pid depth) (hS : r.rtype = "SIMILAR") :
    '-' ∉ r.source.data ∧ '-' ∉ r.target.data := by
  rcases retrievedRels_shape g pid depth r hmem with ⟨r0, hr0, heq, _⟩ | ⟨hdom, _, _⟩
  · rw [heq]
    simpa [projSim] using Hhy r0 hr0
  · exact absurd (hdom.symm.trans hS) (by decide)

theorem cand_shape (g : GraphStore) (pid : String) (depth : Nat) (r : Rel)
    (k : String) (hmem : r ∈ retrievedRels g pid depth)
    (hc : isCand pid (tier1Ids pid (retrievedRels g pid depth)) k r = true) :
    r.source ∈ tier1Ids pid (retrievedRels g pid depth)
      ∨ r.target ∈ tier1Ids pid (retrievedRels g pid depth) := by
  obtain ⟨hS, hnsrc, hntgt, _, _⟩ :=
    isCand_elim pid (tier1Ids pid (retrievedRels g pid depth)) k r hc
  rcases retrievedRels_shape g pid depth r hmem with ⟨r0, hr0, heq, hloc⟩ | ⟨hdom, _, _⟩
  · have hsrc0 : r.source = r0.src := by simp [heq, projSim]
    have htgt0 : r.target = r0.tgt := by simp [heq, projSim]
    rcases hloc with hi | hx | hx
    · exfalso
      rcases Bool.or_eq_true_iff.mp hi with h1 | h1
      · exact hnsrc (by rw [hsrc0]; simpa using h1)
      · exact hntgt (by rw [htgt0]; simpa using h1)
    · left
      rw [hsrc0]
      exact (tier1Ids_retrieved g pid depth r0.src).mpr hx
    · right
      rw [htgt0]
      exact (tier1Ids_retrieved g pid depth r0.tgt).mpr hx
  · exact absurd (hdom.symm.trans hS) (by decide)

theorem kept_endpoints (g : GraphStore) (pid : String) (depth : Nat) (r : Rel)
    (Hnl : ∀ r0 ∈ g.sims, r0.src ≠ r0.tgt)
    (hmem : r ∈ retrievedRels g pid depth) (hS : r.rtype = "SIMILAR")
    (hinc : r.source = pid ∨ r.target = pid) :
    (r.source = pid ∨ r.source ∈ tier1Ids pid (retrievedRels g pid depth)) ∧
    (r.target = pid ∨ r.target ∈ tier1Ids pid (retrievedRels g pid depth)) := by
  have hne := sim_rel_src_tgt_ne g pid depth r Hnl hmem hS
  rcases hinc with hs | ht
  · exact ⟨Or.inl hs, Or.inr (mem_tier1Ids_src pid _ r hmem hS hs)⟩
  · have hns : r.source ≠ pid := fun hc => hne (hc.trans ht.symm)
    exact ⟨Or.inr (mem_tier1Ids_tgt pid _ r hmem hS hns ht), Or.inl ht⟩

theorem cand_endpoints (g : GraphStore) (pid : String) (depth : Nat) (r : Rel)
    (k : String) (hmem : r ∈ retrievedRels g pid depth)
    (hc : isCand pid (tier1Ids pid (retrievedRels g pid depth)) k r = true) :
    (r.source = k ∨ r.source ∈ tier1Ids pid (retrievedRels g pid depth)) ∧
    (r.target = k ∨ r.target ∈ tier1Ids pid (retrievedRels g pid depth)) := by
  have hshape := cand_shape g pid depth r k hmem hc
  obtain ⟨_, _, _, hknot, _⟩ :=
    orient_candidate pid (tier1Ids pid (retrievedRels g pid depth)) k r hc hshape
  obtain ⟨_, _, _, _, hd2⟩ :=
    isCand_elim pid (tier1Ids pid (retrievedRels g pid depth)) k r hc
  rcases d2NodeOf_endpoint pid _ r k hd2 with hks | hkt
  · refine ⟨Or.inl hks.symm, ?_⟩
    rcases hshape with hx | hx
    · exact absurd (hks ▸ hx) hknot
    · exact Or.inr hx
  · refine ⟨?_, Or.inl hkt.symm⟩
    rcases hshape with hx | hx
    · exact Or.inr hx
    · exact absurd (hkt ▸ hx) hknot

/-- Claim C4: in a depth-2 export, a tier-2 node w reachable through more
    than one tier-1 node appears with exactly one inbound SIMILAR edge, and
    the retained edge is one of maximal jaccard_weight among the retrieved
    tier-1-to-w candidate edges; all its other connecting edges are
    discarded.  Assumes the store has no self-loop SIMILAR relationships and
    that node ids contain no hyphen (the character used in the sorted-pair
    deduplication keys). -/
theorem c4_best_match (g : GraphStore) (pid w : String) (p : ProteinNode)
    (Hnl : ∀ r0 ∈ g.sims, r0.src ≠ r0.tgt)
    (Hhy : ∀ r0 ∈ g.sims, '-' ∉ r0.src.data ∧ '-' ∉ r0.tgt.data)
    (hp : lookupProtein g pid = some p)
    (hw2 : 2 ≤ ((((retrievedRels g pid 2).filter
        (isCand pid (tier1Ids pid (retrievedRels g pid 2)) w)).map
          (fun r => if r.source = w then r.target else r.source)).dedup.length)) :
    ∃ (ed : EdgeData) (r : Rel),
      simEdgesInto w (export_neighborhood_for_visualization g pid 2) = [ed] ∧
      r ∈ (retrievedRels g pid 2).filter
        (isCand pid (tier1Ids pid (retrievedRels g pid 2)) w) ∧
      (∀ r' ∈ (retrievedRels g pid 2).filter
          (isCand pid (tier1Ids pid (retrievedRels g pid 2)) w),
        relWeight r' ≤ relWeight r) ∧
      ed.source = (if r.source = w then r.target else r.source) ∧
      ed.target = w ∧ ed.rtype = "SIMILAR" ∧
      ed.weight = r.jaccard_weight.map round2 := by
  have hcid : p.uniprot_id = pid := lookupProtein_id g pid p hp
  set rels := retrievedRels g pid 2 with hrels
  set t1 := tier1Ids pid rels with ht1def
  set cands := rels.filter (isCand pid t1 w) with hcands
  have hform : cands ≠ [] := by
    intro hnil
    rw [hnil] at hw2
    simp at hw2
  obtain ⟨m, hfm, hmmem, hmax⟩ := firstMaxBy_spec relWeight cands hform
  have hmfilter := List.mem_filter.mp (hcands ▸ hmmem)
  have hmc2 : isCand pid t1 w m = true := by simpa using hmfilter.2
  obtain ⟨hmS, hmnsrc, hmntgt, hmnlat, hmd2⟩ := isCand_elim pid t1 w m hmc2
  have hmshape := cand_shape g pid 2 m w hmfilter.1 hmc2
  obtain ⟨hmo2, hmo1t1, hmo1eq, hwt1, hwcid⟩ :=
    orient_candidate pid t1 w m hmc2 hmshape
  have hlook : bmLookup (processRels pid t1 [] rels).2 w
      = some (relWeight m, m) := by
    rw [c5_tie_first_encountered pid t1 rels w, ← hcands, hfm]
    rfl
  obtain ⟨s, t, hsplit⟩ := bmLookup_split _ w (relWeight m) m hlook
  have hkeysnd := processRels_snd_keys_nodup pid t1 rels [] (by simp)
  rw [hsplit] at hkeysnd
  obtain ⟨hws, hwt⟩ := keys_middle_not_mem s t w (w, relWeight m, m) rfl hkeysnd
  have hentry : ∀ e : String × ℚ × Rel, e ∈ s ∨ e ∈ t →
      e.2.2.rtype = "SIMILAR" ∧ (orient pid t1 e.2.2).2 = e.1 ∧
      e.1 ≠ w ∧ e.2.2 ∈ rels ∧ isCand pid t1 e.1 e.2.2 = true := by
    intro e hse
    have hebm : e ∈ (processRels pid t1 [] rels).2 := by
      rw [hsplit]
      rcases hse with h | h
      · exact List.mem_append_left _ h
      · exact List.mem_append_right _ (List.mem_cons_of_mem _ h)
    have hmm := (processRels_snd_mem pid t1 rels [] e hebm).resolve_left (by simp)
    have hcand := hmm.2.2
    have hS2 := isCand_rtype pid t1 e.1 e.2.2 hcand
    have hshape2 := cand_shape g pid 2 e.2.2 e.1 hmm.1 hcand
    obtain ⟨ho22, _, _, _, _⟩ := orient_candidate pid t1 e.1 e.2.2 hcand hshape2
    have hkne : e.1 ≠ w := by
      rcases hse with h | h
      · intro hc
        exact hws (List.mem_map.mpr ⟨e, h, hc⟩)
      · intro hc
        exact hwt (List.mem_map.mpr ⟨e, h, hc⟩)
    exact ⟨hS2, ho22, hkne, hmm.1, hcand⟩
  have hhm := sim_rel_hyphen_free g pid 2 m Hhy hmfilter.1 hmS
  have hkept : ∀ r' ∈ (processRels pid t1 [] rels).1,
      r'.rtype = "SIMILAR" →
      (orient pid t1 r').2 ≠ w ∧
      pairKey r'.source r'.target ≠ pairKey m.source m.target := by
    intro r' hr' hS'
    rw [processRels_fst] at hr'
    have hm' := List.mem_filter.mp hr'
    have hb := hm'.2
    simp only [Bool.or_eq_true, Bool.and_eq_true, decide_eq_true_eq] at hb
    have hinc : r'.source = pid ∨ r'.target = pid := by
      rcases hb with hd | hsim
      · exact absurd (hd.symm.trans hS') (by decide)
      · exact hsim.2
    have hne' := sim_rel_src_tgt_ne g pid 2 r' Hnl hm'.1 hS'
    obtain ⟨ho1, ho2cases, ho3⟩ := orient_center_incident pid t1 r' hinc hne'
    have htin : (orient pid t1 r').2 ∈ t1 := by
      rcases ho2cases with ⟨hoe, htc⟩ | ⟨hoe, hsc⟩
      · rw [hoe]
        refine mem_tier1Ids_tgt pid rels r' hm'.1 hS' ?_ htc
        intro hc
        exact hne' (hc.trans htc.symm)
      · rw [hoe]
        exact mem_tier1Ids_src pid rels r' hm'.1 hS' hsc
    constructor
    · intro he
      exact hwt1 (by rw [← he]; exact htin)
    · intro hpk
      have hend := kept_endpoints g pid 2 r' Hnl hm'.1 hS' hinc
      have hh' := sim_rel_hyphen_free g pid 2 r' Hhy hm'.1 hS'
      have hw_in : w = r'.source ∨ w = r'.target := by
        rcases d2NodeOf_endpoint pid t1 m w hmd2 with hws' | hwt'
        · rcases pairKey_eq_endpoints r'.source r'.target m.source m.target
              hh'.1 hh'.2 hhm.1 hhm.2 hpk with ⟨e1, _⟩ | ⟨_, e2⟩
          · exact Or.inl (hws'.trans e1.symm)
          · exact Or.inr (hws'.trans e2.symm)
        · rcases pairKey_eq_endpoints r'.source r'.target m.source m.target
              hh'.1 hh'.2 hhm.1 hhm.2 hpk with ⟨_, e2⟩ | ⟨e1, _⟩
          · exact Or.inr (hwt'.trans e2.symm)
          · exact Or.inl (hwt'.trans e1.symm)
      rcases hw_in with hws2 | hwt2
      · rcases hend.1 with hx | hx
        · exact hwcid (hws2.trans hx)
        · exact hwt1 (by rw [hws2]; exact hx)
      · rcases hend.2 with hx | hx
        · exact hwcid (hwt2.trans hx)
        · exact hwt1 (by rw [hwt2]; exact hx)
  have hentrykey : ∀ e ∈ s, e.2.2.rtype = "SIMILAR" →
      pairKey e.2.2.source e.2.2.target ≠ pairKey m.source m.target := by
    intro e he _
    obtain ⟨hS2, ho22, hkne, hmemr2, hcand2⟩ := hentry e (Or.inl he)
    intro hpk
    have hend := cand_endpoints g pid 2 e.2.2 e.1 hmemr2 hcand2
    have hh' := sim_rel_hyphen_free g pid 2 e.2.2 Hhy hmemr2 hS2
    have hw_in : w = e.2.2.source ∨ w = e.2.2.target := by
      rcases d2NodeOf_endpoint pid t1 m w hmd2 with hws' | hwt'
      · rcases pairKey_eq_endpoints e.2.2.source e.2.2.target m.source m.target
            hh'.1 hh'.2 hhm.1 hhm.2 hpk with ⟨e1, _⟩ | ⟨_, e2⟩
        · exact Or.inl (hws'.trans e1.symm)
        · exact Or.inr (hws'.trans e2.symm)
      · rcases pairKey_eq_endpoints e.2.2.source e.2.2.target m.source m.target
            hh'.1 hh'.2 hhm.1 hhm.2 hpk with ⟨_, e2⟩ | ⟨e1, _⟩
        · exact Or.inr (hwt'.trans e2.symm)
        · exact Or.inl (hwt'.trans e1.symm)
    rcases hw_in with h | h
    · rcases hend.1 with hx | hx
      · exact hkne (h.trans hx).symm
      · exact hwt1 (by rw [h]; exact hx)
    · rcases hend.2 with hx | hx
      · exact hkne (h.trans hx).symm
      · exact hwt1 (by rw [h]; exact hx)
  have hL1 : ∀ r' ∈ (processRels pid t1 [] rels).1 ++ s.map (fun e => e.2.2),
      r'.rtype = "SIMILAR" → (orient pid t1 r').2 ≠ w := by
    intro r' hr' hS'
    rcases List.mem_append.mp hr' with h | h
    · exact (hkept r' h hS').1
    · obtain ⟨e, he, heq⟩ := List.mem_map.mp h
      obtain ⟨_, ho22, hkne, _, _⟩ := hentry e (Or.inl he)
      rw [← heq, ho22]
      exact hkne
  have hL2 : ∀ r' ∈ t.map (fun e => e.2.2),
      r'.rtype = "SIMILAR" → (orient pid t1 r').2 ≠ w := by
    intro r' hr' hS'
    obtain ⟨e, he, heq⟩ := List.mem_map.mp hr'
    obtain ⟨_, ho22, hkne, _, _⟩ := hentry e (Or.inr he)
    rw [← heq, ho22]
    exact hkne
  have hK1 : ∀ r' ∈ (processRels pid t1 [] rels).1 ++ s.map (fun e => e.2.2),
      r'.rtype = "SIMILAR" →
      pairKey r'.source r'.target ≠ pairKey m.source m.target := by
    intro r' hr' hS'
    rcases List.mem_append.mp hr' with h | h
    · exact (hkept r' h hS').2
    · obtain ⟨e, he, heq⟩ := List.mem_map.mp h
      rw [← heq]
      exact hentrykey e he (by rw [heq]; exact hS')
  have hfe : finalEdges pid t1 rels
      = ((processRels pid t1 [] rels).1 ++ s.map (fun e => e.2.2))
        ++ m :: t.map (fun e => e.2.2) := by
    rw [finalEdges, hsplit, List.map_append, List.map_cons, ← List.append_assoc]
  obtain ⟨j, hout⟩ := simEdgesInto_edgeElements_single w pid t1
    ((processRels pid t1 [] rels).1 ++ s.map (fun e => e.2.2)) m
    (t.map (fun e => e.2.2)) [] 0 hL1 hL2 hmS hmo2 (by simp) hK1
  have hexp : export_neighborhood_for_visualization g pid 2
      = exportData ⟨p, retrievedNeighbors g pid 2, rels,
          (centerDomainIds g pid).filterMap (lookupDomain g), 2⟩ := by
    rw [export_neighborhood_for_visualization,
      get_protein_neighborhood_some g pid 2 p hp]
  rw [hexp, simEdgesInto_exportData]
  dsimp only
  rw [hcid, ← ht1def, hfe, hout]
  refine ⟨⟨"e_" ++ toString j, (orient pid t1 m).1, (orient pid t1 m).2,
      m.rtype, m.jaccard_weight.map round2⟩, m, rfl, hmmem, hmax, ?_, hmo2,
      hmS, rfl⟩
  exact hmo1eq

section
attribute [local semireducible] Rat.mul Rat.inv Rat.add Rat.sub Rat.ofScientific

/-- Witness for C4 on the concrete store where tier-2 node W is reachable
    from tier-1 node A with weight 0.6 and from B with weight 0.4. -/
theorem c4_best_match_witness :
    ∃ (ed : EdgeData) (r : Rel),
      simEdgesInto "W" (export_neighborhood_for_visualization storeC4 "X" 2)
        = [ed] ∧
      r ∈ (retrievedRels storeC4 "X" 2).filter
        (isCand "X" (tier1Ids "X" (retrievedRels storeC4 "X" 2)) "W") ∧
      (∀ r' ∈ (retrievedRels storeC4 "X" 2).filter
          (isCand "X" (tier1Ids "X" (retrievedRels storeC4 "X" 2)) "W"),
        relWeight r' ≤ relWeight r) ∧
      ed.source = (if r.source = "W" then r.target else r.source) ∧
      ed.target = "W" ∧ ed.rtype = "SIMILAR" ∧
      ed.weight = r.jaccard_weight.map round2 :=
  c4_best_match storeC4 "X" "W" ⟨"X", none, none⟩ (by decide) (by decide)
    (by decide) (by decide)

end

end PG
